import Mathlib

/-! Verification development for the `printcolumn` package (row-rendering engine).

Strings are modelled as `List Char` (`PyStr`).  The wrapping primitive used by
`ColumnPrinter._wrap_columns` is `textwrap.fill` with default options
(`break_long_words = True`, `break_on_hyphens = True`, `drop_whitespace = True`,
`expand_tabs = True` with tab size 8, `replace_whitespace = True`,
`max_lines = None`); the namespace `PyTextwrap` below embeds that algorithm
(the `_munge_whitespace` / `_split` / `_wrap_chunks` pipeline of CPython's
`textwrap.TextWrapper`).  Character classes (`\w` and friends) are modelled for
the ASCII range.  Fallible steps return `Except String`.
-/

abbrev PyStr := List Char

deriving instance DecidableEq for Except

namespace PyTextwrap

/-- The six characters of `string.whitespace`, i.e. the characters translated
to a space by `_munge_whitespace` and matched by `\s` in the ASCII range. -/
def isPyWS (c : Char) : Bool :=
  c = ' ' || c = '\t' || c = '\n' || c = '\x0b' || c = '\x0c' || c = '\r'

/-- Class `\w` (ASCII range): alphanumeric or underscore. -/
def isWordChar (c : Char) : Bool := c.isAlphanum || c = '_'

/-- The class `[\w!"\'&.,?]` used by `wordsep_re` for em-dash context. -/
def isWordPunct (c : Char) : Bool :=
  isWordChar c || c = '!' || c = '"' || c = '\'' || c = '&' || c = '.' ||
    c = ',' || c = '?'

/-- The class `[^\d\W]` (a word character that is not a digit). -/
def isLetterChar (c : Char) : Bool := isWordChar c && !c.isDigit

/-- Length of the maximal run of characters satisfying `p` at the head. -/
def runLen (p : Char → Bool) : PyStr → Nat
  | [] => 0
  | c :: cs => if p c then runLen p cs + 1 else 0

/-- Does the character at index `i` exist and satisfy `p`? -/
def testAt (p : Char → Bool) (s : PyStr) (i : Nat) : Bool :=
  match s.get? i with
  | some c => p c
  | none => false

/-- Lookahead `(?= [^\d\W] -? [^\d\W])` of `wordsep_re`, tested at position
`j + 1` (just after the hyphen consumed at position `j`). -/
def hyphenLookAhead (s : PyStr) (j : Nat) : Bool :=
  testAt isLetterChar s (j + 1) &&
    (testAt isLetterChar s (j + 2) ||
      (testAt (· = '-') s (j + 2) && testAt isLetterChar s (j + 3)))

/-- Lookbehind `(?<=[^\d\W]{2}-) | (?<=[^\d\W]-[^\d\W]-)` of `wordsep_re`,
tested just after the hyphen at position `j` has been consumed. -/
def hyphenLookBehind (s : PyStr) (j : Nat) : Bool :=
  (decide (2 ≤ j) && testAt isLetterChar s (j - 2) &&
    testAt isLetterChar s (j - 1)) ||
  (decide (3 ≤ j) && testAt isLetterChar s (j - 3) &&
    testAt (· = '-') s (j - 2) && testAt isLetterChar s (j - 1))

/-- Lookahead `(?=-{2,}\w)`: a run of at least two hyphens followed by a word
character, starting at position `j`. -/
def emDashAhead (s : PyStr) (j : Nat) : Bool :=
  let r := runLen (· = '-') (s.drop j)
  decide (2 ≤ r) && testAt isWordChar s (j + r)

/-- The lazy `\S+?` alternative of `wordsep_re`: starting at `i`, find the
smallest length `L ≥ 1` of non-whitespace characters whose right edge `j`
satisfies one of the three continuations (hyphenated word, end of word,
em-dash boundary), in that order; `(a)` also consumes the hyphen.  `rem`
bounds the number of candidate lengths still to try. -/
def lazyWordLen (s : PyStr) (i : Nat) : Nat → Nat → Option Nat
  | 0, _ => none
  | rem + 1, L =>
    let j := i + L
    if testAt (· = '-') s j && hyphenLookBehind s j && hyphenLookAhead s j then
      some (L + 1)
    else if decide (j = s.length) || testAt isPyWS s j then
      some L
    else if testAt isWordPunct s (j - 1) && emDashAhead s j then
      some L
    else
      lazyWordLen s i rem (L + 1)

/-- Length of the `wordsep_re` match starting at position `i` of `s`
(`none` when no alternative matches there). -/
def matchAt (s : PyStr) (i : Nat) : Option Nat :=
  if testAt isPyWS s i then
    some (runLen isPyWS (s.drop i))
  else if decide (1 ≤ i) && testAt isWordPunct s (i - 1) &&
      testAt (· = '-') s i &&
      (decide (2 ≤ runLen (· = '-') (s.drop i)) &&
        testAt isWordChar s (i + runLen (· = '-') (s.drop i))) then
    some (runLen (· = '-') (s.drop i))
  else if testAt (fun c => !isPyWS c) s i then
    lazyWordLen s i (runLen (fun c => !isPyWS c) (s.drop i)) 1
  else
    none

/-- Scanning driver of `re.split`: positions where the pattern does not match
become stretches of unmatched text, matched spans become their own pieces;
empty pieces are never produced (matches have positive length). -/
def splitLoop (s : PyStr) : Nat → Nat → List Char → List PyStr
  | 0, _, acc => if acc = [] then [] else [acc.reverse]
  | fuel + 1, i, acc =>
    if s.length ≤ i then
      (if acc = [] then [] else [acc.reverse])
    else
      match matchAt s i with
      | some n =>
        let piece := (s.drop i).take n
        let rest := splitLoop s fuel (i + n) []
        if acc = [] then piece :: rest else acc.reverse :: piece :: rest
      | none => splitLoop s fuel (i + 1) (s.getD i ' ' :: acc)

/-- Model of `TextWrapper._split`: break munged text into indivisible chunks. -/
def pySplitChunks (s : PyStr) : List PyStr := splitLoop s (s.length + 1) 0 []

/-- Model of `str.expandtabs(8)`: replace tabs with spaces up to the next tab stop;
the column counter resets after newline and carriage return. -/
def expandTabsLoop : List Char → Nat → List Char
  | [], _ => []
  | c :: cs, col =>
    if c = '\t' then
      List.replicate (8 - col % 8) ' ' ++ expandTabsLoop cs (col + (8 - col % 8))
    else if c = '\n' || c = '\r' then
      c :: expandTabsLoop cs 0
    else
      c :: expandTabsLoop cs (col + 1)

/-- Model of `str.expandtabs(8)` from column 0. -/
def pyExpandTabs (s : PyStr) : PyStr := expandTabsLoop s 0

/-- Model of `TextWrapper._munge_whitespace`: expand tabs, then turn every whitespace
character into a plain space. -/
def pyMungeWhitespace (s : PyStr) : PyStr :=
  (pyExpandTabs s).map (fun c => if isPyWS c then ' ' else c)

/-- Test `chunk.strip() == ''` for chunks: the chunk is all whitespace. -/
def allWS (chunk : PyStr) : Bool := chunk.all isPyWS

/-- Index of the last `'-'` in a string (`str.rfind`). -/
def rfindHyphen : PyStr → Option Nat
  | [] => none
  | c :: cs =>
    match rfindHyphen cs with
    | some k => some (k + 1)
    | none => if c = '-' then some 0 else none

/-- The greedy inner loop of `_wrap_chunks`: move chunks onto the current line
while they fit.  Returns (consumed chunks, final length, remaining chunks). -/
def fitChunks (width : Nat) : Nat → List PyStr → List PyStr × Nat × List PyStr
  | curLen, [] => ([], curLen, [])
  | curLen, c :: cs =>
    if curLen + c.length ≤ width then
      let r := fitChunks width (curLen + c.length) cs
      (c :: r.1, r.2.1, r.2.2)
    else
      ([], curLen, c :: cs)

/-- Model of `TextWrapper._handle_long_word` with `break_long_words = True` and
`break_on_hyphens = True`: split off as much of the chunk as fits, preferring
to break just after the last hyphen in the window when the part before the
hyphen contains a non-hyphen. -/
def handleLongWord (width curLen : Nat) (chunk : PyStr) : PyStr × PyStr :=
  let spaceLeft := if width < 1 then 1 else width - curLen
  let e :=
    if spaceLeft < chunk.length then
      match rfindHyphen (chunk.take spaceLeft) with
      | some h =>
        if 0 < h ∧ (chunk.take h).any (· ≠ '-') then h + 1 else spaceLeft
      | none => spaceLeft
    else spaceLeft
  (chunk.take e, chunk.drop e)

/-- One iteration of the outer `while chunks` loop of `_wrap_chunks`
(with `drop_whitespace = True`, empty indents, `max_lines = None`):
drop a leading whitespace chunk when a line has been emitted already, fill
the line greedily, break a too-long word, drop a trailing whitespace piece,
and emit the line if anything is left. -/
def wrapStep (width : Nat) (hasLines : Bool) (chunks : List PyStr) :
    Option PyStr × List PyStr :=
  let chunks1 :=
    match chunks with
    | c :: cs => if allWS c ∧ hasLines then cs else c :: cs
    | [] => []
  let f := fitChunks width 0 chunks1
  let step2 : List PyStr × List PyStr :=
    match f.2.2 with
    | c :: cs =>
      if width < c.length then
        let hw := handleLongWord width f.2.1 c
        (f.1 ++ [hw.1], hw.2 :: cs)
      else
        (f.1, c :: cs)
    | [] => (f.1, [])
  let curLine :=
    match step2.1.getLast? with
    | some lastC => if allWS lastC then step2.1.dropLast else step2.1
    | none => step2.1
  match curLine with
  | [] => (none, step2.2)
  | _ => (some curLine.flatten, step2.2)

/-- Fuel-indexed outer loop of `_wrap_chunks`; `chunksMeasure chunks + 1` fuel
is always sufficient (each step strictly shrinks the measure). -/
def wrapChunksLoop (width : Nat) : Nat → Bool → List PyStr → List PyStr
  | _, _, [] => []
  | 0, _, _ => []
  | fuel + 1, hasLines, c :: cs =>
    match wrapStep width hasLines (c :: cs) with
    | (some line, rest) => line :: wrapChunksLoop width fuel true rest
    | (none, rest) => wrapChunksLoop width fuel hasLines rest

/-- Termination measure for the outer loop: total chunk length plus the
number of chunks. -/
def chunksMeasure (chunks : List PyStr) : Nat :=
  (chunks.map List.length).sum + chunks.length

/-- Model of `textwrap.wrap(text, width)` with the default options: raises
`ValueError` for `width ≤ 0`, otherwise wraps the munged, split text. -/
def pyWrap (text : PyStr) (width : Int) : Except String (List PyStr) :=
  let chunks := pySplitChunks (pyMungeWhitespace text)
  if width ≤ 0 then
    .error "ValueError: invalid width (must be > 0)"
  else
    .ok (wrapChunksLoop width.toNat (chunksMeasure chunks + 1) false chunks)

/-- Model of `textwrap.fill(text, width)`: the wrapped lines joined with newlines. -/
def pyFill (text : PyStr) (width : Int) : Except String PyStr :=
  (pyWrap text width).map (fun lines => List.intercalate ['\n'] lines)

/-- Python `s.split('\n')`: the empty string yields `['']`, and every newline
separates two (possibly empty) pieces. -/
def pySplitOnNl : PyStr → List PyStr
  | [] => [[]]
  | c :: cs =>
    if c = '\n' then [] :: pySplitOnNl cs
    else
      match pySplitOnNl cs with
      | h :: t => (c :: h) :: t
      | [] => [[c]]

end PyTextwrap

namespace ColumnPrinter

open PyTextwrap

/-- Class constant `DEFAULT_COL_WIDTH = 20`. -/
def DEFAULT_COL_WIDTH : Int := 20

/-- Class constant `DEFAULT_COL_DIV = ' '`. -/
def DEFAULT_COL_DIV : PyStr := [' ']

/-- Class constant `DEFAULT_ROW_DIV = '-'`. -/
def DEFAULT_ROW_DIV : PyStr := ['-']

/-- Class constant `CARRIAGE_RETURN = '\n'`. -/
def CARRIAGE_RETURN : PyStr := ['\n']

/-- A heap of Python list objects, separated by element type.  A "reference"
is an index into the respective heap; `print_column_row` mutates list objects
in place (`+=`), which is observable through references. -/
structure Store where
  intLists : List (List Int)
  strLists : List (List PyStr)
  boolLists : List (List Bool)
deriving DecidableEq, Repr

def lookupInt (st : Store) (r : Nat) : List Int := st.intLists.getD r []

def lookupStr (st : Store) (r : Nat) : List PyStr := st.strLists.getD r []

def lookupBool (st : Store) (r : Nat) : List Bool := st.boolLists.getD r []

def setInt (st : Store) (r : Nat) (v : List Int) : Store :=
  { st with intLists := st.intLists.set r v }

def setBool (st : Store) (r : Nat) (v : List Bool) : Store :=
  { st with boolLists := st.boolLists.set r v }

/-- A `ColumnPrinter` instance: the five per-column default lists are stored
as references to list objects in the `Store`; the scalar attributes are
immutable values. -/
structure Inst where
  col_widths_ref : Nat
  col_text_colors_ref : Nat
  col_back_colors_ref : Nat
  col_bold_ref : Nat
  col_italic_ref : Nat
  col_divider_char : PyStr
  row_divider_char : PyStr
  width : Int
  bold : Bool
  italic : Bool
  text_color : PyStr
  back_color : PyStr
deriving DecidableEq, Repr

/-- What a caller can pass for `col_widths`: nothing (`None`), a bare int, or
a list object (by reference). -/
inductive IntListArg where
  | noneArg
  | scalar (n : Int)
  | ref (r : Nat)
deriving DecidableEq, Repr

/-- What a caller can pass for `col_text_colors` / `col_back_colors`. -/
inductive StrListArg where
  | noneArg
  | scalar (s : PyStr)
  | ref (r : Nat)
deriving DecidableEq, Repr

/-- What a caller can pass for `col_bold` / `col_italic`. -/
inductive BoolListArg where
  | noneArg
  | scalar (b : Bool)
  | ref (r : Nat)
deriving DecidableEq, Repr

/-- The keyword arguments of `print_column_row`; `Option.none` models an
omitted argument (Python default `None`). -/
structure CallKw where
  col_widths : IntListArg
  col_text_colors : StrListArg
  col_back_colors : StrListArg
  col_bold : BoolListArg
  col_italic : BoolListArg
  col_divider_char : Option PyStr
  row_divider_char : Option PyStr
  width : Option Int
  bold : Option Bool
  italic : Option Bool
  text_color : Option PyStr
  back_color : Option PyStr
deriving DecidableEq, Repr

/-- A call with every keyword argument omitted. -/
def CallKw.default : CallKw :=
  ⟨.noneArg, .noneArg, .noneArg, .noneArg, .noneArg, Option.none, Option.none,
    Option.none, Option.none, Option.none, Option.none, Option.none⟩

/-- Python `x or default` for an optional string argument: `None` and `''` both fall
back to the default (Python truthiness). -/
def resolveStrOpt (o : Option PyStr) (d : PyStr) : PyStr :=
  match o with
  | Option.none => d
  | some s => if s = [] then d else s

/-- Python `x or default` for an optional int argument: `None` and `0` both fall back
to the default (Python truthiness). -/
def resolveIntOpt (o : Option Int) (d : Int) : Int :=
  match o with
  | Option.none => d
  | some n => if n = 0 then d else n

/-- Model of `s.replace(' ', '')`: remove every space. -/
def stripSpaces (s : PyStr) : PyStr := s.filter (fun c => c ≠ ' ')

/-- Lines 142 and 156: `col_widths = col_widths or self.col_widths[:]`, then
`[col_widths] if isinstance(col_widths, int) else col_widths`.  Returns the
resulting list value together with the reference it aliases, when it is a
caller-passed (truthy) list object rather than a fresh copy. -/
def resolveWidthsBase (st : Store) (inst : Inst) (a : IntListArg) :
    List Int × Option Nat :=
  match a with
  | .noneArg => (lookupInt st inst.col_widths_ref, Option.none)
  | .scalar n =>
    if n = 0 then (lookupInt st inst.col_widths_ref, Option.none)
    else ([n], Option.none)
  | .ref r =>
    let l := lookupInt st r
    if l = [] then (lookupInt st inst.col_widths_ref, Option.none)
    else (l, some r)

/-- Lines 145/146 and 159/160 for `col_bold` / `col_italic`: truthiness
fallback, then scalar-to-list wrapping.  A scalar `False` is falsy and falls
back to the instance list. -/
def resolveBoolListBase (st : Store) (instRef : Nat) (a : BoolListArg) :
    List Bool × Option Nat :=
  match a with
  | .noneArg => (lookupBool st instRef, Option.none)
  | .scalar b =>
    if b then ([true], Option.none) else (lookupBool st instRef, Option.none)
  | .ref r =>
    let l := lookupBool st r
    if l = [] then (lookupBool st instRef, Option.none)
    else (l, some r)

/-- Lines 143/144 and 157/158 for the color lists: truthiness fallback, then
a list comprehension that strips spaces from every element (always building a
fresh list), or scalar-to-list wrapping with stripping. -/
def resolveColorListBase (st : Store) (instRef : Nat) (a : StrListArg) :
    List PyStr :=
  match a with
  | .noneArg => (lookupStr st instRef).map stripSpaces
  | .scalar s =>
    if s = [] then (lookupStr st instRef).map stripSpaces
    else [stripSpaces s]
  | .ref r =>
    let l := lookupStr st r
    if l = [] then (lookupStr st instRef).map stripSpaces
    else l.map stripSpaces

/-- The fully resolved per-row configuration (lines 142-174 of
`print_column_row`). -/
structure Resolved where
  texts : List PyStr
  widths : List Int
  textColors : List PyStr
  backColors : List PyStr
  boldCols : List Bool
  italicCols : List Bool
  col_divider_char : PyStr
  row_divider_char : PyStr
deriving DecidableEq, Repr

/-- Configuration resolution (lines 141-174 of `print_column_row`): defaults,
normalization to lists, text/width reconciliation and right-padding of the
style lists.  The returned `Store` reflects the in-place `+=` extension of
caller-passed `col_widths` / `col_bold` / `col_italic` list objects (the
color lists are rebuilt fresh by the comprehension and never mutated). -/
def resolveRow (st : Store) (inst : Inst) (args0 : List PyStr) (kw : CallKw) :
    Store × Resolved :=
  let width := resolveIntOpt kw.width inst.width
  let bold := kw.bold.getD inst.bold
  let italic := kw.italic.getD inst.italic
  let text_color := stripSpaces (resolveStrOpt kw.text_color inst.text_color)
  let back_color := stripSpaces (resolveStrOpt kw.back_color inst.back_color)
  let col_div := resolveStrOpt kw.col_divider_char inst.col_divider_char
  let row_div := resolveStrOpt kw.row_divider_char inst.row_divider_char
  let wB := resolveWidthsBase st inst kw.col_widths
  let bB := resolveBoolListBase st inst.col_bold_ref kw.col_bold
  let iB := resolveBoolListBase st inst.col_italic_ref kw.col_italic
  let tcs0 := resolveColorListBase st inst.col_text_colors_ref kw.col_text_colors
  let bcs0 := resolveColorListBase st inst.col_back_colors_ref kw.col_back_colors
  let args1 := if args0 = [] then [([] : PyStr)] else args0
  let widths0 := wB.1
  let widths1 :=
    if widths0.length < args1.length then
      widths0 ++ List.replicate (args1.length - widths0.length) width
    else widths0
  let args2 :=
    if widths0.length < args1.length then args1
    else if args1.length < widths0.length then
      args1 ++ List.replicate (widths0.length - args1.length) ([] : PyStr)
    else args1
  let numCols := args2.length
  let bold1 := bB.1 ++ List.replicate (numCols - bB.1.length) bold
  let italic1 := iB.1 ++ List.replicate (numCols - iB.1.length) italic
  let tcs1 := tcs0 ++ List.replicate (numCols - tcs0.length) text_color
  let bcs1 := bcs0 ++ List.replicate (numCols - bcs0.length) back_color
  let st1 := match wB.2 with
    | some r => setInt st r widths1
    | Option.none => st
  let st2 := match bB.2 with
    | some r => setBool st1 r bold1
    | Option.none => st1
  let st3 := match iB.2 with
    | some r => setBool st2 r italic1
    | Option.none => st2
  (st3, ⟨args2, widths1, tcs1, bcs1, bold1, italic1, col_div, row_div⟩)

/-- Model of `_wrap_columns`: wrap each column text (an empty text is replaced by a
single space) to its width with `textwrap.fill`, then split on newlines. -/
def wrap_columns (args : List PyStr) (col_widths : List Int) :
    Except String (List (List PyStr)) :=
  (args.zip col_widths).mapM fun p =>
    (pyFill (if p.1 = [] then [' '] else p.1) p.2).map pySplitOnNl

/-- Model of `_get_row_length`: sum of the column widths plus the divider length for
each of the `len(col_widths) - 1` gaps. -/
def get_row_length (col_widths : List Int) (col_divider_char : PyStr) : Int :=
  col_widths.sum + (col_divider_char.length : Int) * ((col_widths.length : Int) - 1)

/-- One call to the external styled-output primitive `print_formatted` (or a
bare `print`): the text written, the styling attributes passed along, and
whether a line break follows. -/
structure Emit where
  text : PyStr
  color : PyStr
  backColor : PyStr
  emBold : Bool
  emItalic : Bool
  newline : Bool
deriving DecidableEq, Repr

/-- A bare `print()`: empty text followed by a line break. -/
def newlineEmit : Emit := ⟨[], [], [], false, false, true⟩

/-- Model of `str.ljust`: right-pad with spaces to the target width (no-op when the
string is already at least that long, or when the width is negative). -/
def pyLjust (s : PyStr) (w : Int) : PyStr :=
  s ++ List.replicate (w.toNat - s.length) ' '

/-- Model of `_print_columns`: emit the aligned grid line by line; each cell is padded
to its column width and styled, each gap gets the column divider styled with
the current column's background color, each display row ends with a line
break. -/
def print_columns (columns : List (List PyStr)) (col_widths : List Int)
    (col_text_colors col_back_colors : List PyStr)
    (col_bold col_italic : List Bool) (col_divider_char : PyStr) : List Emit :=
  let rowCount := (columns.map List.length).foldl max 0
  ((List.range rowCount).map fun r =>
    (((List.range columns.length).map fun ci =>
      let line := (columns.getD ci []).getD r []
      let padded := pyLjust line (col_widths.getD ci 0)
      let cell : Emit := ⟨padded, col_text_colors.getD ci [],
        col_back_colors.getD ci [], col_bold.getD ci false,
        col_italic.getD ci false, false⟩
      if ci + 1 < columns.length then
        [cell, ⟨col_divider_char, [], col_back_colors.getD ci [], false, false,
          false⟩]
      else [cell]).flatten)
    ++ [newlineEmit]).flatten

/-- Python `s * k` for strings (empty for `k ≤ 0`). -/
def pyStrMul (s : PyStr) (k : Int) : PyStr :=
  (List.replicate k.toNat s).flatten

/-- Python `s[:n]` (counts from the end when `n` is negative). -/
def pySliceTo (s : PyStr) (n : Int) : PyStr :=
  if 0 ≤ n then s.take n.toNat else s.take ((s.length : Int) + n).toNat

/-- Python `math.ceil(a / b)` for integers (`b > 0`). -/
def pyCeilDiv (a b : Int) : Int := -((-a).fdiv b)

/-- Model of `_print_row_divider`: a bare blank line for the newline sentinel;
otherwise the divider string repeated `ceil(row_length / len(...))` times and
sliced to `row_length` — dividing by zero when the divider is empty. -/
def print_row_divider (row_divider_char : PyStr) (row_length : Int) :
    Except String (List Emit) :=
  if row_divider_char = CARRIAGE_RETURN then
    .ok [newlineEmit]
  else if row_divider_char.length = 0 then
    .error "ZeroDivisionError: division by zero"
  else
    .ok [⟨pySliceTo (pyStrMul row_divider_char
        (pyCeilDiv row_length (row_divider_char.length : Int))) row_length,
      [], [], false, false, true⟩]

/-- Result of a call: the heap after the call, the emissions produced before
any exception, and the exception if one was raised. -/
structure RunResult where
  store : Store
  output : List Emit
  error : Option String
deriving DecidableEq, Repr

/-- The rendering half of `print_column_row` (lines 176-190): wrap the
columns, print the grid, then print the row divider.  An exception from
wrapping (`ValueError`) or from the divider arithmetic (`ZeroDivisionError`)
leaves the output produced so far. -/
def renderResolved (R : Resolved) : List Emit × Option String :=
  match wrap_columns R.texts R.widths with
  | .error e => ([], some e)
  | .ok columns =>
    let body := print_columns columns R.widths R.textColors R.backColors
      R.boldCols R.italicCols R.col_divider_char
    let rowLength := get_row_length R.widths R.col_divider_char
    match print_row_divider R.row_divider_char rowLength with
    | .error e => (body, some e)
    | .ok divOut => (body ++ divOut, Option.none)

/-- Model of `print_column_row` (lines 102-190): resolve the configuration (possibly
mutating caller-passed lists in place), then render the resolved row with
`renderResolved`. -/
def print_column_row (st : Store) (inst : Inst) (args0 : List PyStr)
    (kw : CallKw) : RunResult :=
  let r := resolveRow st inst args0 kw
  ⟨r.1, (renderResolved r.2).1, (renderResolved r.2).2⟩

/-- The heap of a freshly constructed `ColumnPrinter()`: its five default
lists are distinct empty list objects. -/
def defaultStore : Store := ⟨[[]], [[], []], [[], []]⟩

/-- A `ColumnPrinter()` built with all constructor defaults, its lists living
in `defaultStore`. -/
def defaultInst : Inst :=
  ⟨0, 0, 1, 0, 1, DEFAULT_COL_DIV, DEFAULT_ROW_DIV, DEFAULT_COL_WIDTH,
    false, false, [], []⟩

end ColumnPrinter

open PyTextwrap ColumnPrinter

namespace Claims

/-- Store for the C1 counterexample: the instance lists of `defaultInst` plus
a caller-owned two-element `col_bold` list object at reference 2. -/
def c1Store : Store := ⟨[[]], [[], []], [[], [], [true, true]]⟩

/-- Store for the C2 counterexample: a caller `col_widths` list `[0]`. -/
def c2Store : Store := ⟨[[], [0]], [[], []], [[], []]⟩

/-- Instance for the C3 counterexample: constructed with
`row_divider_char = ''`. -/
def c3Inst : Inst := { defaultInst with row_divider_char := [] }

/-- Store for the C10 counterexample: the instance's own `col_widths` list is
`[5]` at reference 0. -/
def c10Store : Store := ⟨[[5]], [[], []], [[], []]⟩

end Claims

/-- The common length of the resolved `texts` and `widths` vectors: the
maximum of the number of text arguments (one when none are passed, since the
call is padded to `['']`) and the length of the resolved widths base. -/
def expectedNumCols (st : Store) (inst : Inst) (args0 : List PyStr)
    (kw : CallKw) : Nat :=
  max (if args0 = [] then 1 else args0.length)
    (resolveWidthsBase st inst kw.col_widths).1.length

/-- Two optional color arguments that resolve identically: both omitted, or
both given with the same space-stripped value and the same truthiness. -/
def optColorEquiv : Option PyStr → Option PyStr → Prop
  | Option.none, Option.none => True
  | some s1, some s2 => stripSpaces s1 = stripSpaces s2 ∧ (s1 = [] ↔ s2 = [])
  | _, _ => False

/-- Two color-list arguments that resolve identically: both omitted, the same
reference, or scalars with the same space-stripped value and truthiness. -/
def strListArgStripEquiv : StrListArg → StrListArg → Prop
  | .noneArg, .noneArg => True
  | .scalar s1, .scalar s2 =>
    stripSpaces s1 = stripSpaces s2 ∧ (s1 = [] ↔ s2 = [])
  | .ref r1, .ref r2 => r1 = r2
  | _, _ => False


/-- C8: a call with no column texts and no explicit widths resolves to a
single empty-string column of the default width 20, and prints one line of 20
spaces (unstyled), a line break, and a 20-character dash row divider; zero
columns are never rendered. -/
theorem c8_empty_call_renders_one_default_column :
    resolveRow defaultStore defaultInst [] CallKw.default =
      (defaultStore,
        ⟨[[]], [20], [[]], [[]], [false], [false], [' '], ['-']⟩) ∧
    print_column_row defaultStore defaultInst [] CallKw.default =
      ⟨defaultStore,
        [⟨List.replicate 20 ' ', [], [], false, false, false⟩, newlineEmit,
          ⟨List.replicate 20 '-', [], [], false, false, true⟩],
        Option.none⟩ := by
  decide

/-- C6: when the resolved row divider is the newline sentinel `'\n'`,
`_print_row_divider` emits exactly one blank line (a bare `print()`: empty
text plus a line break) and no repeated-character divider line, for every row
length. -/
theorem c6_newline_sentinel_blank_line (rowLength : Int) :
    print_row_divider CARRIAGE_RETURN rowLength = .ok [newlineEmit] ∧
    newlineEmit.text = [] ∧ newlineEmit.newline = true := by
  constructor
  · rfl
  · exact ⟨rfl, rfl⟩

/-- C1 counterexample: a call with one text argument and a two-element
`col_bold` list resolves to vectors of unequal lengths (`texts` has length 1
while `bold` keeps length 2 — the style lists are never truncated). -/
theorem c1_counterexample :
    ¬ ((resolveRow Claims.c1Store defaultInst [['a']]
          { CallKw.default with col_bold := .ref 2 }).2.boldCols.length =
       (resolveRow Claims.c1Store defaultInst [['a']]
          { CallKw.default with col_bold := .ref 2 }).2.texts.length) := by
  decide

/-- C2 counterexample: a resolved column width of 0 makes the wrapping step
raise `ValueError` (as `textwrap.fill` does for any width ≤ 0), and the whole
`print_column_row` call fails instead of treating the width as 1. -/
theorem c2_counterexample :
    wrap_columns [['h', 'i']] [0] =
      .error "ValueError: invalid width (must be > 0)" ∧
    (print_column_row Claims.c2Store defaultInst [['h'], ['i']]
        { CallKw.default with col_widths := .ref 1 }).error =
      some "ValueError: invalid width (must be > 0)" := by
  decide

/-- C3 counterexample: when the resolved row-divider string is empty (here
because the instance was constructed with `row_divider_char = ''`), printing
the row divider raises `ZeroDivisionError` — there is no guarded branch for
the empty string. -/
theorem c3_counterexample :
    (print_column_row defaultStore Claims.c3Inst [['a']] CallKw.default).error
      = some "ZeroDivisionError: division by zero" := by
  decide

/-- C9 counterexample: the non-empty string `"a "` (length 2) is shorter than
its column width 5, yet wrapping produces the line `"a"`, not a line equal to
the original string (trailing whitespace is dropped). -/
theorem c9_counterexample :
    wrap_columns [['a', ' ']] [5] = .ok [[['a']]] ∧
    [[['a']]] ≠ [[['a', ' ']]] := by
  decide

/-- C4 counterexample: the single word `"abcdef"` (no whitespace) in a column
of width 3 is force-split by the wrapping step into `["abc", "def"]` rather
than being emitted unbroken as its own single overflowing line. -/
theorem c4_counterexample :
    wrap_columns ["abcdef".toList] [3] =
      .ok [["abc".toList, "def".toList]] ∧
    ["abc".toList, "def".toList] ≠ ["abcdef".toList] := by
  decide

/-- C10 counterexample: passing the instance's own stored `col_widths` list
object as the `col_widths` argument lets the in-place `+=` of
`print_column_row` mutate the stored instance attribute: after a call with
two texts, the instance's widths list has grown from `[5]` to `[5, 20]`. -/
theorem c10_counterexample :
    lookupInt (print_column_row Claims.c10Store defaultInst [['a'], ['b']]
        { CallKw.default with col_widths := .ref 0 }).store
        defaultInst.col_widths_ref = [5, 20] ∧
    lookupInt Claims.c10Store defaultInst.col_widths_ref = [5] := by
  decide

/-- Lemma: `textwrap.fill` succeeds for every positive width (its only failure is
the explicit width check). -/
theorem pyFill_ok_of_pos (t : PyStr) (w : Int) (h : 1 ≤ w) :
    pyFill t w = .ok (List.intercalate ['\n']
      (wrapChunksLoop w.toNat
        (chunksMeasure (pySplitChunks (pyMungeWhitespace t)) + 1) false
        (pySplitChunks (pyMungeWhitespace t)))) := by
  have hnot : ¬ w ≤ 0 := by omega
  simp [pyFill, pyWrap, hnot, Except.map]

/-- Lemma: `textwrap.fill` raises for every non-positive width. -/
theorem pyFill_error_of_nonpos (t : PyStr) (w : Int) (h : w ≤ 0) :
    pyFill t w = .error "ValueError: invalid width (must be > 0)" := by
  simp [pyFill, pyWrap, h, Except.map]

/-- Lemma: `mapM` over the zipped columns succeeds when every width is positive. -/
theorem wrap_columns_ok_of_pos (args : List PyStr) (ws : List Int)
    (h : ∀ w ∈ ws, 1 ≤ w) : ∃ cols, wrap_columns args ws = .ok cols := by
  unfold wrap_columns
  have hz : ∀ p ∈ args.zip ws, 1 ≤ p.2 := by
    intro p hp
    exact h p.2 (List.of_mem_zip hp).2
  revert hz
  generalize args.zip ws = l
  induction l with
  | nil => exact fun _ => ⟨[], rfl⟩
  | cons a l ih =>
    intro hz
    obtain ⟨cols, hcols⟩ := ih (fun p hp => hz p (List.mem_cons_of_mem a hp))
    refine ⟨pySplitOnNl (List.intercalate ['\n']
      (wrapChunksLoop a.2.toNat
        (chunksMeasure (pySplitChunks (pyMungeWhitespace
          (if a.1 = [] then [' '] else a.1))) + 1) false
        (pySplitChunks (pyMungeWhitespace
          (if a.1 = [] then [' '] else a.1))))) :: cols, ?_⟩
    rw [List.mapM_cons]
    simp only [Except.map, List.mapM] at hcols ⊢
    rw [pyFill_ok_of_pos _ _ (hz a (List.mem_cons_self a l))]
    simp [bind, Except.bind, hcols, pure, Except.pure]


/-- C2 amended: zero or negative widths are not tolerated — `textwrap.fill`
raises `ValueError` for every width ≤ 0 — while the wrapping step succeeds
for every call in which all resolved widths are ≥ 1. -/
theorem c2_amended_wrapping_requires_positive_width :
    (∀ (args : List PyStr) (ws : List Int), (∀ w ∈ ws, 1 ≤ w) →
      ∃ cols, wrap_columns args ws = .ok cols) ∧
    (∀ (t : PyStr) (w : Int), w ≤ 0 →
      pyFill t w = .error "ValueError: invalid width (must be > 0)") :=
  ⟨wrap_columns_ok_of_pos, pyFill_error_of_nonpos⟩

/-- Witness for C2 amended at concrete inputs. -/
theorem c2_amended_witness :
    (∃ cols, wrap_columns [['h', 'i']] [(5 : Int)] = .ok cols) ∧
    pyFill ['h', 'i'] (-2) = .error "ValueError: invalid width (must be > 0)" :=
  ⟨c2_amended_wrapping_requires_positive_width.1 [['h', 'i']] [5] (by decide),
   c2_amended_wrapping_requires_positive_width.2 ['h', 'i'] (-2) (by decide)⟩

/-- Lemma: `getD` after `set` at a different index is unchanged. -/
theorem getD_set_ne {α : Type} (l : List α) (r r2 : Nat) (v d : α)
    (h : r ≠ r2) : (l.set r v).getD r2 d = l.getD r2 d := by
  induction l generalizing r r2 with
  | nil => simp
  | cons a t ih =>
    cases r with
    | zero =>
      cases r2 with
      | zero => exact absurd rfl h
      | succ m => simp
    | succ n =>
      cases r2 with
      | zero => simp
      | succ m => simpa using ih n m (by omega)

/-- Lemma: `setInt` at one reference leaves the int list at another unchanged. -/
theorem lookupInt_setInt_ne (st : Store) (r r2 : Nat) (v : List Int)
    (h : r ≠ r2) : lookupInt (setInt st r v) r2 = lookupInt st r2 :=
  getD_set_ne _ r r2 v [] h

/-- Lemma: `setBool` at one reference leaves the bool list at another unchanged. -/
theorem lookupBool_setBool_ne (st : Store) (r r2 : Nat) (v : List Bool)
    (h : r ≠ r2) : lookupBool (setBool st r v) r2 = lookupBool st r2 :=
  getD_set_ne _ r r2 v [] h

/-- A widths base carries a reference only when the caller passed that
reference (a truthy list argument). -/
theorem resolveWidthsBase_ref (st : Store) (inst : Inst) (a : IntListArg)
    (r : Nat) (h : (resolveWidthsBase st inst a).2 = some r) : a = .ref r := by
  cases a with
  | noneArg => simp [resolveWidthsBase] at h
  | scalar n =>
    simp only [resolveWidthsBase] at h
    split at h <;> simp at h
  | ref r0 =>
    simp only [resolveWidthsBase] at h
    split at h
    · simp at h
    · simp at h
      exact h ▸ rfl

/-- A bool-list base carries a reference only when the caller passed that
reference (a truthy list argument). -/
theorem resolveBoolListBase_ref (st : Store) (instRef : Nat) (a : BoolListArg)
    (r : Nat) (h : (resolveBoolListBase st instRef a).2 = some r) :
    a = .ref r := by
  cases a with
  | noneArg => simp [resolveBoolListBase] at h
  | scalar b =>
    simp only [resolveBoolListBase] at h
    split at h <;> simp at h
  | ref r0 =>
    simp only [resolveBoolListBase] at h
    split at h
    · simp at h
    · simp at h
      exact h ▸ rfl

/-- The store after a full `print_column_row` call is the store produced by
configuration resolution (rendering itself allocates nothing). -/
theorem print_column_row_store (st : Store) (inst : Inst) (args0 : List PyStr)
    (kw : CallKw) :
    (print_column_row st inst args0 kw).store =
      (resolveRow st inst args0 kw).1 := rfl

/-- Lookups in heaps untouched by `setInt` / `setBool`. -/
theorem lookupBool_setInt (st : Store) (r : Nat) (v : List Int) (x : Nat) :
    lookupBool (setInt st r v) x = lookupBool st x := rfl

/-- Lemma: `setBool` leaves the int heap unchanged. -/
theorem lookupInt_setBool (st : Store) (r : Nat) (v : List Bool) (x : Nat) :
    lookupInt (setBool st r v) x = lookupInt st x := rfl

/-- Lemma: `setInt` leaves the string heap unchanged. -/
theorem strLists_setInt (st : Store) (r : Nat) (v : List Int) :
    (setInt st r v).strLists = st.strLists := rfl

/-- Lemma: `setBool` leaves the string heap unchanged. -/
theorem strLists_setBool (st : Store) (r : Nat) (v : List Bool) :
    (setBool st r v).strLists = st.strLists := rfl

/-- Configuration resolution preserves the instance's stored lists provided
the caller did not pass the instance's own `col_widths` / `col_bold` /
`col_italic` list objects as arguments; the string heap (color lists) is
never mutated at all. -/
theorem resolveRow_store_preserves (st : Store) (inst : Inst)
    (args0 : List PyStr) (kw : CallKw)
    (hw : ∀ r, kw.col_widths = .ref r → r ≠ inst.col_widths_ref)
    (hb : ∀ r, kw.col_bold = .ref r →
      r ≠ inst.col_bold_ref ∧ r ≠ inst.col_italic_ref)
    (hi : ∀ r, kw.col_italic = .ref r →
      r ≠ inst.col_bold_ref ∧ r ≠ inst.col_italic_ref) :
    lookupInt (resolveRow st inst args0 kw).1 inst.col_widths_ref =
      lookupInt st inst.col_widths_ref ∧
    lookupBool (resolveRow st inst args0 kw).1 inst.col_bold_ref =
      lookupBool st inst.col_bold_ref ∧
    lookupBool (resolveRow st inst args0 kw).1 inst.col_italic_ref =
      lookupBool st inst.col_italic_ref ∧
    (resolveRow st inst args0 kw).1.strLists = st.strLists := by
  simp only [resolveRow]
  cases hwB : (resolveWidthsBase st inst kw.col_widths).2 with
  | none =>
    cases hbB : (resolveBoolListBase st inst.col_bold_ref kw.col_bold).2 with
    | none =>
      cases hiB : (resolveBoolListBase st inst.col_italic_ref kw.col_italic).2 with
      | none => exact ⟨rfl, rfl, rfl, rfl⟩
      | some ri =>
        have hne := hi ri (resolveBoolListBase_ref _ _ _ _ hiB)
        exact ⟨rfl, lookupBool_setBool_ne _ _ _ _ hne.1,
          lookupBool_setBool_ne _ _ _ _ hne.2, rfl⟩
    | some rb =>
      have hne := hb rb (resolveBoolListBase_ref _ _ _ _ hbB)
      cases hiB : (resolveBoolListBase st inst.col_italic_ref kw.col_italic).2 with
      | none =>
        exact ⟨rfl, lookupBool_setBool_ne _ _ _ _ hne.1,
          lookupBool_setBool_ne _ _ _ _ hne.2, rfl⟩
      | some ri =>
        have hne2 := hi ri (resolveBoolListBase_ref _ _ _ _ hiB)
        refine ⟨rfl, ?_, ?_, rfl⟩
        · rw [lookupBool_setBool_ne _ _ _ _ hne2.1,
            lookupBool_setBool_ne _ _ _ _ hne.1]
        · rw [lookupBool_setBool_ne _ _ _ _ hne2.2,
            lookupBool_setBool_ne _ _ _ _ hne.2]
  | some rw1 =>
    have hneW := hw rw1 (resolveWidthsBase_ref _ _ _ _ hwB)
    cases hbB : (resolveBoolListBase st inst.col_bold_ref kw.col_bold).2 with
    | none =>
      cases hiB : (resolveBoolListBase st inst.col_italic_ref kw.col_italic).2 with
      | none => exact ⟨lookupInt_setInt_ne _ _ _ _ hneW, rfl, rfl, rfl⟩
      | some ri =>
        have hne := hi ri (resolveBoolListBase_ref _ _ _ _ hiB)
        refine ⟨?_, ?_, ?_, rfl⟩
        · rw [lookupInt_setBool, lookupInt_setInt_ne _ _ _ _ hneW]
        · rw [lookupBool_setBool_ne _ _ _ _ hne.1]; rfl
        · rw [lookupBool_setBool_ne _ _ _ _ hne.2]; rfl
    | some rb =>
      have hne := hb rb (resolveBoolListBase_ref _ _ _ _ hbB)
      cases hiB : (resolveBoolListBase st inst.col_italic_ref kw.col_italic).2 with
      | none =>
        refine ⟨?_, ?_, ?_, rfl⟩
        · rw [lookupInt_setBool, lookupInt_setInt_ne _ _ _ _ hneW]
        · rw [lookupBool_setBool_ne _ _ _ _ hne.1]; rfl
        · rw [lookupBool_setBool_ne _ _ _ _ hne.2]; rfl
      | some ri =>
        have hne2 := hi ri (resolveBoolListBase_ref _ _ _ _ hiB)
        refine ⟨?_, ?_, ?_, rfl⟩
        · rw [lookupInt_setBool, lookupInt_setBool,
            lookupInt_setInt_ne _ _ _ _ hneW]
        · rw [lookupBool_setBool_ne _ _ _ _ hne2.1,
            lookupBool_setBool_ne _ _ _ _ hne.1]; rfl
        · rw [lookupBool_setBool_ne _ _ _ _ hne2.2,
            lookupBool_setBool_ne _ _ _ _ hne.2]; rfl

/-- C10 amended: a `print_column_row` call leaves all stored instance
attributes unchanged provided no list argument aliases one of the instance's
own stored list objects: the instance lists are copied before being extended,
the color lists are rebuilt fresh (so the string heap is never mutated), and
the scalar attributes are never assigned.  (Without the no-aliasing proviso
the claim fails, see the aliasing counterexample.) -/
theorem c10_amended_no_alias_frame (st : Store) (inst : Inst)
    (args0 : List PyStr) (kw : CallKw)
    (hw : ∀ r, kw.col_widths = .ref r → r ≠ inst.col_widths_ref)
    (hb : ∀ r, kw.col_bold = .ref r →
      r ≠ inst.col_bold_ref ∧ r ≠ inst.col_italic_ref)
    (hi : ∀ r, kw.col_italic = .ref r →
      r ≠ inst.col_bold_ref ∧ r ≠ inst.col_italic_ref) :
    lookupInt (print_column_row st inst args0 kw).store inst.col_widths_ref =
      lookupInt st inst.col_widths_ref ∧
    lookupStr (print_column_row st inst args0 kw).store
        inst.col_text_colors_ref = lookupStr st inst.col_text_colors_ref ∧
    lookupStr (print_column_row st inst args0 kw).store
        inst.col_back_colors_ref = lookupStr st inst.col_back_colors_ref ∧
    lookupBool (print_column_row st inst args0 kw).store inst.col_bold_ref =
      lookupBool st inst.col_bold_ref ∧
    lookupBool (print_column_row st inst args0 kw).store inst.col_italic_ref =
      lookupBool st inst.col_italic_ref := by
  obtain ⟨h1, h2, h3, h4⟩ := resolveRow_store_preserves st inst args0 kw hw hb hi
  rw [print_column_row_store]
  refine ⟨h1, ?_, ?_, h2, h3⟩ <;> simp [lookupStr, h4]

/-- Witness for C10 amended: a non-aliasing call (fresh argument lists and
defaults) leaves every instance list unchanged. -/
theorem c10_amended_witness :
    lookupInt (print_column_row Claims.c10Store defaultInst [['a'], ['b']]
        CallKw.default).store defaultInst.col_widths_ref =
      lookupInt Claims.c10Store defaultInst.col_widths_ref ∧
    lookupStr (print_column_row Claims.c10Store defaultInst [['a'], ['b']]
        CallKw.default).store defaultInst.col_text_colors_ref =
      lookupStr Claims.c10Store defaultInst.col_text_colors_ref ∧
    lookupStr (print_column_row Claims.c10Store defaultInst [['a'], ['b']]
        CallKw.default).store defaultInst.col_back_colors_ref =
      lookupStr Claims.c10Store defaultInst.col_back_colors_ref ∧
    lookupBool (print_column_row Claims.c10Store defaultInst [['a'], ['b']]
        CallKw.default).store defaultInst.col_bold_ref =
      lookupBool Claims.c10Store defaultInst.col_bold_ref ∧
    lookupBool (print_column_row Claims.c10Store defaultInst [['a'], ['b']]
        CallKw.default).store defaultInst.col_italic_ref =
      lookupBool Claims.c10Store defaultInst.col_italic_ref :=
  c10_amended_no_alias_frame Claims.c10Store defaultInst [['a'], ['b']]
    CallKw.default (by intro r h; cases h) (by intro r h; cases h)
    (by intro r h; cases h)

/-- C1 amended: `texts` and `widths` always resolve to the common length
`max(number of text args (at least 1), length of the resolved widths list)`;
the four per-column style vectors also have that length — hence all six are
equal — provided each supplied style list is not longer than that common
length (over-long style lists are kept, never truncated, which breaks the
original claim). -/
theorem c1_amended_vector_lengths (st : Store) (inst : Inst)
    (args0 : List PyStr) (kw : CallKw)
    (htc : (resolveColorListBase st inst.col_text_colors_ref
      kw.col_text_colors).length ≤ expectedNumCols st inst args0 kw)
    (hbc : (resolveColorListBase st inst.col_back_colors_ref
      kw.col_back_colors).length ≤ expectedNumCols st inst args0 kw)
    (hbo : (resolveBoolListBase st inst.col_bold_ref kw.col_bold).1.length ≤
      expectedNumCols st inst args0 kw)
    (hit : (resolveBoolListBase st inst.col_italic_ref kw.col_italic).1.length
      ≤ expectedNumCols st inst args0 kw) :
    (resolveRow st inst args0 kw).2.texts.length =
      expectedNumCols st inst args0 kw ∧
    (resolveRow st inst args0 kw).2.widths.length =
      expectedNumCols st inst args0 kw ∧
    (resolveRow st inst args0 kw).2.textColors.length =
      expectedNumCols st inst args0 kw ∧
    (resolveRow st inst args0 kw).2.backColors.length =
      expectedNumCols st inst args0 kw ∧
    (resolveRow st inst args0 kw).2.boldCols.length =
      expectedNumCols st inst args0 kw ∧
    (resolveRow st inst args0 kw).2.italicCols.length =
      expectedNumCols st inst args0 kw := by
  simp only [resolveRow]
  set A := (if args0 = [] then [([] : PyStr)] else args0) with hA
  set W0 := (resolveWidthsBase st inst kw.col_widths).1 with hW0
  set N := expectedNumCols st inst args0 kw with hN
  have hAlen : A.length = (if args0 = [] then 1 else args0.length) := by
    rw [hA]; split <;> simp
  have hNN : N = max A.length W0.length := by
    rw [hN, expectedNumCols, hAlen, hW0]
  have htexts : (if W0.length < A.length then A
      else if A.length < W0.length then
        A ++ List.replicate (W0.length - A.length) ([] : PyStr)
      else A).length = N := by
    split_ifs with h1 h2 <;>
      simp only [List.length_append, List.length_replicate, hNN] <;> omega
  have hwidths : (if W0.length < A.length then
      W0 ++ List.replicate (A.length - W0.length)
        (resolveIntOpt kw.width inst.width)
      else W0).length = N := by
    split_ifs with h1 <;>
      simp only [List.length_append, List.length_replicate, hNN] <;> omega
  refine ⟨htexts, hwidths, ?_, ?_, ?_, ?_⟩ <;>
    simp only [List.length_append, List.length_replicate, htexts] <;> omega

/-- Witness for C1 amended: with two text arguments and no style overrides
the common resolved length is 2. -/
theorem c1_amended_witness :
    expectedNumCols defaultStore defaultInst [['a'], ['b']] CallKw.default
      = 2 ∧
    ((resolveRow defaultStore defaultInst [['a'], ['b']]
        CallKw.default).2.texts.length =
      expectedNumCols defaultStore defaultInst [['a'], ['b']] CallKw.default ∧
    (resolveRow defaultStore defaultInst [['a'], ['b']]
        CallKw.default).2.widths.length =
      expectedNumCols defaultStore defaultInst [['a'], ['b']] CallKw.default ∧
    (resolveRow defaultStore defaultInst [['a'], ['b']]
        CallKw.default).2.textColors.length =
      expectedNumCols defaultStore defaultInst [['a'], ['b']] CallKw.default ∧
    (resolveRow defaultStore defaultInst [['a'], ['b']]
        CallKw.default).2.backColors.length =
      expectedNumCols defaultStore defaultInst [['a'], ['b']] CallKw.default ∧
    (resolveRow defaultStore defaultInst [['a'], ['b']]
        CallKw.default).2.boldCols.length =
      expectedNumCols defaultStore defaultInst [['a'], ['b']] CallKw.default ∧
    (resolveRow defaultStore defaultInst [['a'], ['b']]
        CallKw.default).2.italicCols.length =
      expectedNumCols defaultStore defaultInst [['a'], ['b']]
        CallKw.default) :=
  ⟨by decide,
    c1_amended_vector_lengths defaultStore defaultInst [['a'], ['b']]
      CallKw.default (by decide) (by decide) (by decide) (by decide)⟩

/-- C3 amended: only the newline sentinel is guarded in
`_print_row_divider`; an empty resolved row-divider string always raises
`ZeroDivisionError` (there is no guarded branch for it).  An empty
`row_divider_char` argument is falsy, however, so at call level it falls back
to the instance default during resolution, and a fault requires the instance
default itself to be empty. -/
theorem c3_amended_empty_divider_faults :
    (∀ rowLength : Int, print_row_divider [] rowLength =
      .error "ZeroDivisionError: division by zero") ∧
    (∀ (st : Store) (inst : Inst) (args0 : List PyStr) (kw : CallKw),
      kw.row_divider_char = some [] →
      (resolveRow st inst args0 kw).2.row_divider_char =
        inst.row_divider_char) := by
  constructor
  · intro rowLength
    have h : ([] : PyStr) ≠ CARRIAGE_RETURN := by decide
    simp [print_row_divider, h]
  · intro st inst args0 kw h
    simp [resolveRow, resolveStrOpt, h]

/-- Witness for C3 amended at concrete inputs. -/
theorem c3_amended_witness :
    print_row_divider [] 17 = .error "ZeroDivisionError: division by zero" ∧
    (resolveRow defaultStore defaultInst [['a']]
        { CallKw.default with row_divider_char := some [] }).2.row_divider_char
      = defaultInst.row_divider_char :=
  ⟨c3_amended_empty_divider_faults.1 17,
   c3_amended_empty_divider_faults.2 defaultStore defaultInst [['a']]
     { CallKw.default with row_divider_char := some [] } rfl⟩

/-- A list of integers that are all ≥ 1 has sum at least its length. -/
theorem length_le_sum_of_one_le (l : List Int) (h : ∀ w ∈ l, 1 ≤ w) :
    (l.length : Int) ≤ l.sum := by
  induction l with
  | nil => simp
  | cons a t ih =>
    have ha := h a (List.mem_cons_self a t)
    have ht := ih (fun w hw => h w (List.mem_cons_of_mem a hw))
    simp only [List.length_cons, List.sum_cons]
    push_cast
    omega

/-- Length of Python string repetition. -/
theorem pyStrMul_length (s : PyStr) (k : Int) :
    (pyStrMul s k).length = k.toNat * s.length := by
  simp [pyStrMul, List.length_flatten, List.map_replicate,
    List.sum_replicate, smul_eq_mul]

/-- The ceiling division used to size the row divider covers the row length:
`len * ceil(L / len) ≥ L` for `len > 0`. -/
theorem pyCeilDiv_cover (L b : Int) (hb : 0 < b) : L ≤ b * pyCeilDiv L b := by
  unfold pyCeilDiv
  rw [Int.fdiv_eq_ediv _ (by omega)]
  have h1 := Int.ediv_add_emod (-L) b
  have h2 := Int.emod_nonneg (-L) (by omega : b ≠ 0)
  have h3 : b * (-((-L) / b)) = -(b * ((-L) / b)) := by ring
  omega

/-- C5: for a non-empty, non-sentinel resolved row divider and positive
column widths, the printed divider line has length exactly
`rowLength = sum(widths) + len(columnDivider) * (numColumns - 1)` and is the
divider string repeated then truncated to that length. -/
theorem c5_row_divider_line (col_widths : List Int) (cdc rdc : PyStr)
    (hws : ∀ w ∈ col_widths, 1 ≤ w) (hne : col_widths ≠ [])
    (hrne : rdc ≠ []) (hsent : rdc ≠ CARRIAGE_RETURN) :
    ∃ line : PyStr,
      print_row_divider rdc (get_row_length col_widths cdc) =
        .ok [⟨line, [], [], false, false, true⟩] ∧
      (line.length : Int) = get_row_length col_widths cdc ∧
      ∃ k : Nat, line = (List.flatten (List.replicate k rdc)).take
        (get_row_length col_widths cdc).toNat := by
  set L := get_row_length col_widths cdc with hL
  have hlen1 : 1 ≤ col_widths.length := by
    cases col_widths with
    | nil => exact absurd rfl hne
    | cons a t => simp
  have hL0 : 0 ≤ L := by
    have h1 : (col_widths.length : Int) ≤ col_widths.sum :=
      length_le_sum_of_one_le _ hws
    have h2 : (0 : Int) ≤ (cdc.length : Int) * ((col_widths.length : Int) - 1) := by
      have hc : (0 : Int) ≤ (cdc.length : Int) := Int.natCast_nonneg _
      have hd : (0 : Int) ≤ (col_widths.length : Int) - 1 := by
        have : (1 : Int) ≤ (col_widths.length : Int) := by exact_mod_cast hlen1
        omega
      exact mul_nonneg hc hd
    rw [hL, get_row_length]
    omega
  have hlen : rdc.length ≠ 0 := fun h => hrne (List.eq_nil_of_length_eq_zero h)
  have hb : (0 : Int) < (rdc.length : Int) := by
    exact_mod_cast Nat.pos_of_ne_zero hlen
  refine ⟨pySliceTo (pyStrMul rdc (pyCeilDiv L (rdc.length : Int))) L,
    ?_, ?_, ?_⟩
  · simp [print_row_divider, hsent, hlen]
  · have hcov := pyCeilDiv_cover L (rdc.length : Int) hb
    have hcovN : L.toNat ≤ (pyCeilDiv L (rdc.length : Int)).toNat * rdc.length := by
      rcases le_or_lt (pyCeilDiv L (rdc.length : Int)) 0 with hk | hk
      · have : (rdc.length : Int) * pyCeilDiv L (rdc.length : Int) ≤ 0 :=
          mul_nonpos_of_nonneg_of_nonpos (le_of_lt hb) hk
        omega
      · have hcast : ((((pyCeilDiv L (rdc.length : Int)).toNat * rdc.length : Nat)) : Int)
            = pyCeilDiv L (rdc.length : Int) * (rdc.length : Int) := by
          push_cast
          rw [Int.toNat_of_nonneg (le_of_lt hk)]
        have hcomm : (rdc.length : Int) * pyCeilDiv L (rdc.length : Int)
            = pyCeilDiv L (rdc.length : Int) * (rdc.length : Int) :=
          mul_comm _ _
        omega
    have : (pySliceTo (pyStrMul rdc (pyCeilDiv L (rdc.length : Int))) L).length
        = L.toNat := by
      rw [pySliceTo, if_pos hL0, List.length_take, pyStrMul_length]
      omega
    rw [this, Int.toNat_of_nonneg hL0]
  · exact ⟨(pyCeilDiv L (rdc.length : Int)).toNat,
      by rw [pySliceTo, if_pos hL0]; rfl⟩

/-- Witness for C5: three columns of width 5, a one-character column divider
and row divider `"-"` yield a divider line of 17 dashes. -/
theorem c5_witness :
    (∃ line : PyStr,
      print_row_divider ['-'] (get_row_length [5, 5, 5] [' ']) =
        .ok [⟨line, [], [], false, false, true⟩] ∧
      (line.length : Int) = get_row_length [5, 5, 5] [' '] ∧
      ∃ k : Nat, line = (List.flatten (List.replicate k ['-'])).take
        (get_row_length [5, 5, 5] [' ']).toNat) ∧
    get_row_length [5, 5, 5] [' '] = 17 ∧
    print_row_divider ['-'] (get_row_length [5, 5, 5] [' ']) =
      .ok [⟨List.replicate 17 '-', [], [], false, false, true⟩] :=
  ⟨c5_row_divider_line [5, 5, 5] [' '] ['-'] (by decide) (by decide)
      (by decide) (by decide),
   by decide, by decide⟩

/-- Truthiness-or followed by space stripping respects `optColorEquiv`. -/
theorem stripSpaces_resolveStrOpt_congr (o1 o2 : Option PyStr) (d : PyStr)
    (h : optColorEquiv o1 o2) :
    stripSpaces (resolveStrOpt o1 d) = stripSpaces (resolveStrOpt o2 d) := by
  cases o1 with
  | none =>
    cases o2 with
    | none => rfl
    | some s2 => exact absurd h (by simp [optColorEquiv])
  | some s1 =>
    cases o2 with
    | none => exact absurd h (by simp [optColorEquiv])
    | some s2 =>
      obtain ⟨hs, hiff⟩ := h
      by_cases h1 : s1 = []
      · have h2 : s2 = [] := hiff.mp h1
        simp [resolveStrOpt, h1, h2]
      · have h2 : s2 ≠ [] := fun hh => h1 (hiff.mpr hh)
        simpa [resolveStrOpt, h1, h2] using hs

/-- The color-list resolution respects `strListArgStripEquiv`. -/
theorem resolveColorListBase_congr_arg (st : Store) (instRef : Nat)
    (a1 a2 : StrListArg) (h : strListArgStripEquiv a1 a2) :
    resolveColorListBase st instRef a1 = resolveColorListBase st instRef a2 := by
  cases a1 with
  | noneArg =>
    cases a2 with
    | noneArg => rfl
    | scalar s => exact absurd h (by simp [strListArgStripEquiv])
    | ref r => exact absurd h (by simp [strListArgStripEquiv])
  | scalar s1 =>
    cases a2 with
    | noneArg => exact absurd h (by simp [strListArgStripEquiv])
    | scalar s2 =>
      obtain ⟨hs, hiff⟩ := h
      by_cases h1 : s1 = []
      · have h2 : s2 = [] := hiff.mp h1
        simp [resolveColorListBase, h1, h2]
      · have h2 : s2 ≠ [] := fun hh => h1 (hiff.mpr hh)
        simp [resolveColorListBase, h1, h2, hs]
    | ref r => exact absurd h (by simp [strListArgStripEquiv])
  | ref r1 =>
    cases a2 with
    | noneArg => exact absurd h (by simp [strListArgStripEquiv])
    | scalar s => exact absurd h (by simp [strListArgStripEquiv])
    | ref r2 =>
      have : r1 = r2 := h
      rw [this]

/-- Resolution depends on the color arguments only through space stripping:
calls whose color arguments are `stripEquiv` resolve identically (same
`Resolved`, same store effect). -/
theorem resolveRow_color_congr (st : Store) (inst : Inst) (args0 : List PyStr)
    (aw : IntListArg) (atcl1 atcl2 abcl1 abcl2 : StrListArg)
    (ab ai : BoolListArg) (acd ard : Option PyStr) (awd : Option Int)
    (abo ait : Option Bool) (atc1 atc2 abc1 abc2 : Option PyStr)
    (h1 : strListArgStripEquiv atcl1 atcl2)
    (h2 : strListArgStripEquiv abcl1 abcl2)
    (h3 : optColorEquiv atc1 atc2) (h4 : optColorEquiv abc1 abc2) :
    resolveRow st inst args0
      ⟨aw, atcl1, abcl1, ab, ai, acd, ard, awd, abo, ait, atc1, abc1⟩ =
    resolveRow st inst args0
      ⟨aw, atcl2, abcl2, ab, ai, acd, ard, awd, abo, ait, atc2, abc2⟩ := by
  simp only [resolveRow]
  rw [stripSpaces_resolveStrOpt_congr atc1 atc2 _ h3,
    stripSpaces_resolveStrOpt_congr abc1 abc2 _ h4,
    resolveColorListBase_congr_arg st inst.col_text_colors_ref _ _ h1,
    resolveColorListBase_congr_arg st inst.col_back_colors_ref _ _ h2]

/-- The widths base depends only on the int heap. -/
theorem resolveWidthsBase_store_congr (st1 st2 : Store) (inst : Inst)
    (a : IntListArg) (h : st1.intLists = st2.intLists) :
    resolveWidthsBase st1 inst a = resolveWidthsBase st2 inst a := by
  cases a <;> simp [resolveWidthsBase, lookupInt, h]

/-- The bool-list base depends only on the bool heap. -/
theorem resolveBoolListBase_store_congr (st1 st2 : Store) (instRef : Nat)
    (a : BoolListArg) (h : st1.boolLists = st2.boolLists) :
    resolveBoolListBase st1 instRef a = resolveBoolListBase st2 instRef a := by
  cases a <;> simp [resolveBoolListBase, lookupBool, h]

/-- The color-list resolution reads the string heap only up to space
stripping. -/
theorem resolveColorListBase_store_congr (st1 st2 : Store) (instRef : Nat)
    (a : StrListArg)
    (h : ∀ x, (lookupStr st1 x).map stripSpaces =
      (lookupStr st2 x).map stripSpaces) :
    resolveColorListBase st1 instRef a = resolveColorListBase st2 instRef a := by
  have hemp : ∀ x, lookupStr st1 x = [] ↔ lookupStr st2 x = [] := by
    intro x
    have := congrArg List.length (h x)
    simp only [List.length_map] at this
    constructor <;> intro hx
    · exact List.eq_nil_of_length_eq_zero (by rw [← this, hx]; rfl)
    · exact List.eq_nil_of_length_eq_zero (by rw [this, hx]; rfl)
  cases a with
  | noneArg => exact h instRef
  | scalar s =>
    by_cases hs : s = [] <;> simp [resolveColorListBase, hs, h instRef]
  | ref r =>
    by_cases hr : lookupStr st1 r = []
    · have hr2 : lookupStr st2 r = [] := (hemp r).mp hr
      simp [resolveColorListBase, hr, hr2, h instRef]
    · have hr2 : lookupStr st2 r ≠ [] := fun hh => hr ((hemp r).mpr hh)
      simp [resolveColorListBase, hr, hr2, h r]

/-- Resolution produces the same `Resolved` over two stores whose int and
bool heaps agree and whose string heaps agree up to space stripping. -/
theorem resolveRow_resolved_store_congr (st1 st2 : Store) (inst : Inst)
    (args0 : List PyStr) (kw : CallKw)
    (hint : st1.intLists = st2.intLists)
    (hbool : st1.boolLists = st2.boolLists)
    (hstr : ∀ x, (lookupStr st1 x).map stripSpaces =
      (lookupStr st2 x).map stripSpaces) :
    (resolveRow st1 inst args0 kw).2 = (resolveRow st2 inst args0 kw).2 := by
  simp only [resolveRow]
  rw [resolveWidthsBase_store_congr st1 st2 inst _ hint,
    resolveBoolListBase_store_congr st1 st2 inst.col_bold_ref _ hbool,
    resolveBoolListBase_store_congr st1 st2 inst.col_italic_ref _ hbool,
    resolveColorListBase_store_congr st1 st2 inst.col_text_colors_ref _ hstr,
    resolveColorListBase_store_congr st1 st2 inst.col_back_colors_ref _ hstr]

/-- C7: color names are space-stripped during resolution, so calls differing
only in spaces inside color names behave identically.  Three forms: (1) the
scalar `text_color` / `back_color` defaults — the whole call result
(including the heap) agrees; (2) scalar strings passed for the per-column
color lists; (3) per-column color list objects in the heap that agree after
stripping every element — the printed output and the raised exception
agree. -/
theorem c7_color_space_stripping :
    (∀ (st : Store) (inst : Inst) (args0 : List PyStr) (kw : CallKw)
        (tc1 tc2 bc1 bc2 : PyStr),
      stripSpaces tc1 = stripSpaces tc2 → (tc1 = [] ↔ tc2 = []) →
      stripSpaces bc1 = stripSpaces bc2 → (bc1 = [] ↔ bc2 = []) →
      print_column_row st inst args0
        { kw with text_color := some tc1, back_color := some bc1 } =
      print_column_row st inst args0
        { kw with text_color := some tc2, back_color := some bc2 }) ∧
    (∀ (st : Store) (inst : Inst) (args0 : List PyStr) (kw : CallKw)
        (s1 s2 t1 t2 : PyStr),
      stripSpaces s1 = stripSpaces s2 → (s1 = [] ↔ s2 = []) →
      stripSpaces t1 = stripSpaces t2 → (t1 = [] ↔ t2 = []) →
      print_column_row st inst args0
        { kw with
          col_text_colors := .scalar s1
          col_back_colors := .scalar t1 } =
      print_column_row st inst args0
        { kw with
          col_text_colors := .scalar s2
          col_back_colors := .scalar t2 }) ∧
    (∀ (stI : List (List Int)) (stB : List (List Bool))
        (sl1 sl2 : List (List PyStr)) (inst : Inst) (args0 : List PyStr)
        (kw : CallKw),
      (∀ x, (sl1.getD x []).map stripSpaces =
        (sl2.getD x []).map stripSpaces) →
      (print_column_row ⟨stI, sl1, stB⟩ inst args0 kw).output =
        (print_column_row ⟨stI, sl2, stB⟩ inst args0 kw).output ∧
      (print_column_row ⟨stI, sl1, stB⟩ inst args0 kw).error =
        (print_column_row ⟨stI, sl2, stB⟩ inst args0 kw).error) := by
  refine ⟨?_, ?_, ?_⟩
  · intro st inst args0 kw tc1 tc2 bc1 bc2 hs hi ht hj
    have h := resolveRow_color_congr st inst args0 kw.col_widths
      kw.col_text_colors kw.col_text_colors kw.col_back_colors
      kw.col_back_colors kw.col_bold kw.col_italic kw.col_divider_char
      kw.row_divider_char kw.width kw.bold kw.italic
      (some tc1) (some tc2) (some bc1) (some bc2)
      (by cases kw.col_text_colors <;> simp [strListArgStripEquiv])
      (by cases kw.col_back_colors <;> simp [strListArgStripEquiv])
      ⟨hs, hi⟩ ⟨ht, hj⟩
    simp only [print_column_row]
    rw [show ({ kw with text_color := some tc1, back_color := some bc1 } : CallKw)
        = ⟨kw.col_widths, kw.col_text_colors, kw.col_back_colors, kw.col_bold,
          kw.col_italic, kw.col_divider_char, kw.row_divider_char, kw.width,
          kw.bold, kw.italic, some tc1, some bc1⟩ from rfl,
      show ({ kw with text_color := some tc2, back_color := some bc2 } : CallKw)
        = ⟨kw.col_widths, kw.col_text_colors, kw.col_back_colors, kw.col_bold,
          kw.col_italic, kw.col_divider_char, kw.row_divider_char, kw.width,
          kw.bold, kw.italic, some tc2, some bc2⟩ from rfl, h]
  · intro st inst args0 kw s1 s2 t1 t2 hs hi ht hj
    have h := resolveRow_color_congr st inst args0 kw.col_widths
      (.scalar s1) (.scalar s2) (.scalar t1) (.scalar t2)
      kw.col_bold kw.col_italic kw.col_divider_char
      kw.row_divider_char kw.width kw.bold kw.italic
      kw.text_color kw.text_color kw.back_color kw.back_color
      ⟨hs, hi⟩ ⟨ht, hj⟩
      (by cases kw.text_color <;> simp [optColorEquiv])
      (by cases kw.back_color <;> simp [optColorEquiv])
    simp only [print_column_row]
    rw [show ({ kw with
          col_text_colors := .scalar s1
          col_back_colors := .scalar t1 } : CallKw)
        = ⟨kw.col_widths, .scalar s1, .scalar t1, kw.col_bold,
          kw.col_italic, kw.col_divider_char, kw.row_divider_char, kw.width,
          kw.bold, kw.italic, kw.text_color, kw.back_color⟩ from rfl,
      show ({ kw with
          col_text_colors := .scalar s2
          col_back_colors := .scalar t2 } : CallKw)
        = ⟨kw.col_widths, .scalar s2, .scalar t2, kw.col_bold,
          kw.col_italic, kw.col_divider_char, kw.row_divider_char, kw.width,
          kw.bold, kw.italic, kw.text_color, kw.back_color⟩ from rfl, h]
  · intro stI stB sl1 sl2 inst args0 kw h
    have hR := resolveRow_resolved_store_congr ⟨stI, sl1, stB⟩ ⟨stI, sl2, stB⟩
      inst args0 kw rfl rfl (by intro x; exact h x)
    simp only [print_column_row]
    rw [hR]
    exact ⟨rfl, rfl⟩

/-- Witness for C7: the text color `"light blue"` produces exactly the call
result of `"lightblue"` on a concrete call. -/
theorem c7_witness :
    print_column_row defaultStore defaultInst [['h', 'i']]
      { CallKw.default with
        text_color := some "light blue".toList
        back_color := some "light blue".toList } =
    print_column_row defaultStore defaultInst [['h', 'i']]
      { CallKw.default with
        text_color := some "lightblue".toList
        back_color := some "lightblue".toList } :=
  c7_color_space_stripping.1 defaultStore defaultInst [['h', 'i']]
    CallKw.default "light blue".toList "lightblue".toList "light blue".toList
    "lightblue".toList (by decide) (by decide) (by decide) (by decide)

/-- A run starting with a satisfying character is nonempty. -/
theorem runLen_pos (p : Char → Bool) (l : List Char) (c : Char)
    (hh : l.head? = some c) (hp : p c = true) : 1 ≤ runLen p l := by
  cases l with
  | nil => simp at hh
  | cons a t =>
    simp only [List.head?_cons, Option.some.injEq] at hh
    subst hh
    simp [runLen, hp]

/-- A run of satisfying characters spans the whole list. -/
theorem runLen_all (p : Char → Bool) (l : List Char)
    (h : ∀ c ∈ l, p c = true) : runLen p l = l.length := by
  induction l with
  | nil => rfl
  | cons a t ih =>
    simp [runLen, h a (List.mem_cons_self a t),
      ih (fun c hc => h c (List.mem_cons_of_mem a hc))]

/-- The lazy word alternative never returns less than its starting length. -/
theorem lazyWordLen_ge (s : PyStr) (i : Nat) :
    ∀ (rem L m : Nat), lazyWordLen s i rem L = some m → L ≤ m := by
  intro rem
  induction rem with
  | zero => intro L m h; simp [lazyWordLen] at h
  | succ r ih =>
    intro L m h
    simp only [lazyWordLen] at h
    split at h
    · cases h; omega
    · split at h
      · cases h; omega
      · split at h
        · cases h; omega
        · exact le_trans (by omega) (ih (L + 1) m h)

/-- Every `wordsep_re` match has positive length. -/
theorem matchAt_pos (s : PyStr) (i n : Nat) (h : matchAt s i = some n) :
    1 ≤ n := by
  simp only [matchAt] at h
  split at h
  · rename_i hws
    cases h
    simp only [testAt] at hws
    cases hg : s.get? i with
    | none => rw [hg] at hws; exact absurd hws (by simp)
    | some c =>
      rw [hg] at hws
      refine runLen_pos _ _ c ?_ hws
      rw [List.head?_drop, ← List.get?_eq_getElem?, hg]
  · split at h
    · rename_i hcond
      cases h
      simp only [Bool.and_eq_true, decide_eq_true_eq] at hcond
      omega
    · split at h
      · exact lazyWordLen_ge s i _ 1 n h
      · cases h

/-- The split driver tiles the string: the concatenation of the produced
pieces is the accumulator followed by the rest of the string. -/
theorem splitLoop_flatten (s : PyStr) :
    ∀ (fuel i : Nat) (acc : List Char), s.length < i + fuel →
      (splitLoop s fuel i acc).flatten = acc.reverse ++ s.drop i := by
  intro fuel
  induction fuel with
  | zero =>
    intro i acc hf
    have : s.drop i = [] := List.drop_eq_nil_of_le (by omega)
    by_cases hacc : acc = [] <;> simp [splitLoop, hacc, this]
  | succ f ih =>
    intro i acc hf
    simp only [splitLoop]
    split
    · rename_i hle
      have : s.drop i = [] := List.drop_eq_nil_of_le hle
      by_cases hacc : acc = [] <;> simp [hacc, this]
    · rename_i hlt
      cases hm : matchAt s i with
      | some n =>
        have hn := matchAt_pos s i n hm
        have hdrop : (s.drop i).take n ++ s.drop (i + n) = s.drop i := by
          rw [← List.drop_drop, List.take_append_drop]
        have hrest := ih (i + n) [] (by omega)
        by_cases hacc : acc = [] <;>
          simp [hacc, hrest, ← List.append_assoc, hdrop]
      | none =>
        have hrest := ih (i + 1) (s.getD i ' ' :: acc) (by omega)
        rw [hrest]
        have hcons : s.getD i ' ' :: s.drop (i + 1) = s.drop i := by
          rw [List.getD_eq_getElem?_getD,
            List.getElem?_eq_getElem (by omega : i < s.length)]
          exact (List.drop_eq_getElem_cons (by omega)).symm
        simp [← hcons]

/-- No piece produced by the split driver is empty. -/
theorem splitLoop_ne_nil (s : PyStr) :
    ∀ (fuel i : Nat) (acc : List Char) (p : PyStr),
      p ∈ splitLoop s fuel i acc → p ≠ [] := by
  intro fuel
  induction fuel with
  | zero =>
    intro i acc p hp
    by_cases hacc : acc = [] <;> simp [splitLoop, hacc] at hp
    · rw [hp]
      simpa using hacc
  | succ f ih =>
    intro i acc p hp
    simp only [splitLoop] at hp
    split at hp
    · by_cases hacc : acc = [] <;> simp [hacc] at hp
      · rw [hp]
        simpa using hacc
    · rename_i hlt
      cases hm : matchAt s i with
      | some n =>
        rw [hm] at hp
        have hn := matchAt_pos s i n hm
        have hpiece : (s.drop i).take n ≠ [] := by
          have h1 : (s.drop i).length = s.length - i := List.length_drop i s
          have : ((s.drop i).take n).length = min n (s.length - i) := by
            rw [List.length_take, h1]
          intro hcontra
          rw [hcontra] at this
          simp at this
          omega
        by_cases hacc : acc = [] <;> simp [hacc] at hp
        · rcases hp with hp | hp
          · rw [hp]; exact hpiece
          · exact ih _ _ p hp
        · rcases hp with hp | hp | hp
          · rw [hp]; simpa using hacc
          · rw [hp]; exact hpiece
          · exact ih _ _ p hp
      | none =>
        rw [hm] at hp
        exact ih _ _ p hp

/-- Lemma: `_split` tiles the munged text. -/
theorem pySplitChunks_flatten (s : PyStr) : (pySplitChunks s).flatten = s := by
  have := splitLoop_flatten s (s.length + 1) 0 [] (by omega)
  simpa [pySplitChunks] using this

/-- Lemma: `_split` never produces an empty chunk. -/
theorem pySplitChunks_ne_nil (s : PyStr) :
    ∀ p ∈ pySplitChunks s, p ≠ [] := by
  intro p hp
  exact splitLoop_ne_nil s (s.length + 1) 0 [] p hp

/-- Tab expansion is the identity on tab-free text. -/
theorem expandTabsLoop_id (s : List Char) (h : ∀ c ∈ s, c ≠ '\t') :
    ∀ col, expandTabsLoop s col = s := by
  induction s with
  | nil => intro col; rfl
  | cons a t ih =>
    intro col
    have ha := h a (List.mem_cons_self a t)
    have ht := ih (fun c hc => h c (List.mem_cons_of_mem a hc))
    by_cases hnl : a = '\n' || a = '\r'
    · simp [expandTabsLoop, ha, hnl, ht]
    · simp [expandTabsLoop, ha, hnl, ht]

/-- Whitespace munging is the identity when the only whitespace character
present is the plain space. -/
theorem pyMungeWhitespace_id (s : PyStr)
    (h : ∀ c ∈ s, isPyWS c = true → c = ' ') (ht : ∀ c ∈ s, c ≠ '\t') :
    pyMungeWhitespace s = s := by
  rw [pyMungeWhitespace, pyExpandTabs, expandTabsLoop_id s ht 0]
  induction s with
  | nil => rfl
  | cons a t ih =>
    have ha := h a (List.mem_cons_self a t)
    have iht := ih (fun c hc hw => h c (List.mem_cons_of_mem a hc) hw)
      (fun c hc => ht c (List.mem_cons_of_mem a hc))
    simp only [List.map_cons, iht]
    by_cases hw : isPyWS a = true
    · rw [if_pos hw, ha hw]
    · rw [if_neg hw]

/-- The greedy fill loop consumes every chunk when they all fit. -/
theorem fitChunks_all (W : Nat) :
    ∀ (chunks : List PyStr) (curLen : Nat),
      curLen + (chunks.map List.length).sum ≤ W →
      fitChunks W curLen chunks =
        (chunks, curLen + (chunks.map List.length).sum, []) := by
  intro chunks
  induction chunks with
  | nil => intro curLen h; simp [fitChunks]
  | cons c cs ih =>
    intro curLen h
    simp only [List.map_cons, List.sum_cons] at h ⊢
    have hfit : curLen + c.length ≤ W := by omega
    have := ih (curLen + c.length) (by omega)
    simp [fitChunks, hfit, this]
    omega

/-- Lemma: `allWS` is false for any chunk containing a non-whitespace character. -/
theorem allWS_eq_false (chunk : PyStr) (c : Char) (hc : c ∈ chunk)
    (hw : isPyWS c = false) : allWS chunk = false := by
  simp only [allWS, List.all_eq_false]
  exact ⟨c, hc, by simp [hw]⟩

/-- The last element of the flattened list of nonempty chunks is the last
element of the last chunk. -/
theorem flatten_getLast? {α : Type} (L : List (List α))
    (hne : ∀ p ∈ L, p ≠ []) (hL : L ≠ []) :
    ∃ lc, L.getLast? = some lc ∧ lc.getLast? = L.flatten.getLast? := by
  induction L with
  | nil => exact absurd rfl hL
  | cons x t ih =>
    cases t with
    | nil =>
      refine ⟨x, rfl, ?_⟩
      simp
    | cons y u =>
      obtain ⟨lc, h1, h2⟩ := ih
        (fun p hp => hne p (List.mem_cons_of_mem x hp)) (by simp)
      refine ⟨lc, by rw [List.getLast?_cons_cons, h1], ?_⟩
      have hflat : (y :: u).flatten ≠ [] := by
        rw [List.flatten_ne_nil_iff]
        exact ⟨y, List.mem_cons_self y u, hne y (by simp)⟩
      rw [h2]
      have : (x :: y :: u).flatten = x ++ (y :: u).flatten := by simp
      rw [this, List.getLast?_append]
      cases hy : (y :: u).flatten.getLast? with
      | none =>
        exact absurd (List.getLast?_eq_none_iff.mp hy) hflat
      | some z => simp

/-- Lemma: `rfind('-')` fails on hyphen-free text. -/
theorem rfindHyphen_none (l : PyStr) (h : ∀ x ∈ l, x ≠ '-') :
    rfindHyphen l = none := by
  induction l with
  | nil => rfl
  | cons a t ih =>
    have ha := h a (List.mem_cons_self a t)
    rw [rfindHyphen, ih (fun x hx => h x (List.mem_cons_of_mem a hx))]
    simp [ha]

/-- One wrap step when every chunk fits on the line and neither whitespace
drop fires: the whole chunk list becomes one line. -/
theorem wrapStep_all_fits (W : Nat) (hasL : Bool) (chunks : List PyStr)
    (hne : chunks ≠ [])
    (hnodrop : ¬(allWS (chunks.headD []) = true ∧ hasL = true))
    (hfit : (chunks.map List.length).sum ≤ W)
    (hlast : ∃ lc, chunks.getLast? = some lc ∧ allWS lc = false) :
    wrapStep W hasL chunks = (some chunks.flatten, []) := by
  obtain ⟨lc, hlc, hlcws⟩ := hlast
  cases chunks with
  | nil => exact absurd rfl hne
  | cons c cs =>
    simp only [wrapStep]
    rw [if_neg (by simpa using hnodrop)]
    rw [fitChunks_all W (c :: cs) 0 (by simpa using hfit)]
    simp only []
    rw [hlc]
    simp [hlcws]

/-- One wrap step on a single over-long chunk without hyphens: exactly the
first `W` characters are split off. -/
theorem wrapStep_long_chunk (W : Nat) (hW : 1 ≤ W) (hasL : Bool) (c : PyStr)
    (hchar : ∀ ch ∈ c, isPyWS ch = false ∧ ch ≠ '-')
    (hlong : W < c.length) :
    wrapStep W hasL [c] = (some (c.take W), [c.drop W]) := by
  have hcne : c ≠ [] := by
    intro hcontra
    rw [hcontra] at hlong
    simp at hlong
  obtain ⟨ch, ct, hc⟩ : ∃ ch ct, c = ch :: ct := by
    cases c with
    | nil => exact absurd rfl hcne
    | cons a t => exact ⟨a, t, rfl⟩
  have hchws : isPyWS ch = false := (hchar ch (by rw [hc]; simp)).1
  have hallws : allWS c = false :=
    allWS_eq_false c ch (by rw [hc]; simp) hchws
  have hhl : handleLongWord W 0 c = (c.take W, c.drop W) := by
    simp only [handleLongWord]
    rw [if_neg (by omega : ¬ W < 1)]
    have hsl : W - 0 = W := by omega
    rw [hsl, if_pos hlong,
      rfindHyphen_none (c.take W)
        (fun x hx => (hchar x (List.take_subset W c hx)).2)]
  simp only [wrapStep]
  rw [if_neg (by simp [hallws])]
  have hnofit : fitChunks W 0 [c] = ([], 0, [c]) := by
    simp only [fitChunks]
    rw [if_neg (by omega : ¬ 0 + c.length ≤ W)]
  rw [hnofit]
  simp only []
  rw [if_pos hlong, hhl]
  have htklen : (c.take W).length = W := by
    rw [List.length_take]
    omega
  have htkne : c.take W ≠ [] := by
    intro hcontra
    rw [hcontra] at htklen
    simp at htklen
    omega
  obtain ⟨x, hx⟩ := List.exists_mem_of_ne_nil _ htkne
  have htkws : allWS (c.take W) = false :=
    allWS_eq_false _ x hx (hchar x (List.take_subset W c hx)).1
  simp [htkws]

/-- The wrap loop on no chunks produces no lines, whatever the fuel. -/
theorem wrapChunksLoop_nil (W fuel : Nat) (hasL : Bool) :
    wrapChunksLoop W fuel hasL [] = [] := by
  cases fuel <;> rfl

/-- The outer wrap loop on chunks that all fit on one line (first call, so no
leading-whitespace drop): exactly one line, the concatenation of the
chunks. -/
theorem wrapChunksLoop_all_fits (W fuel : Nat) (chunks : List PyStr)
    (hne : chunks ≠ []) (hfuel : 1 ≤ fuel)
    (hfit : (chunks.map List.length).sum ≤ W)
    (hlast : ∃ lc, chunks.getLast? = some lc ∧ allWS lc = false) :
    wrapChunksLoop W fuel false chunks = [chunks.flatten] := by
  cases fuel with
  | zero => omega
  | succ f =>
    cases chunks with
    | nil => exact absurd rfl hne
    | cons c cs =>
      simp only [wrapChunksLoop]
      rw [wrapStep_all_fits W false (c :: cs) hne (by simp) hfit hlast]
      simp [wrapChunksLoop_nil]

/-- The outer wrap loop on a single over-long hyphen-free word: the word is
cut into consecutive pieces of exactly the width (the last piece possibly
shorter), with no character lost. -/
theorem wrapChunksLoop_long_chunk (W : Nat) (hW : 1 ≤ W) :
    ∀ (fuel : Nat) (c : PyStr) (hasL : Bool),
      chunksMeasure [c] < fuel → c ≠ [] →
      (∀ ch ∈ c, isPyWS ch = false ∧ ch ≠ '-') →
      (wrapChunksLoop W fuel hasL [c]).flatten = c ∧
      (∀ l ∈ wrapChunksLoop W fuel hasL [c], l.length ≤ W ∧ l ≠ []) ∧
      (wrapChunksLoop W fuel hasL [c]).length = (c.length + W - 1) / W := by
  intro fuel
  induction fuel with
  | zero =>
    intro c hasL hm hne hchar
    simp [chunksMeasure] at hm
  | succ f ih =>
    intro c hasL hm hne hchar
    have hlen1 : 1 ≤ c.length := by
      cases c with
      | nil => exact absurd rfl hne
      | cons a t => simp
    by_cases hfit : c.length ≤ W
    · have hstep : wrapChunksLoop W (f + 1) hasL [c] = [c] := by
        obtain ⟨x, hx⟩ := List.exists_mem_of_ne_nil _ hne
        have hcws : allWS c = false :=
          allWS_eq_false c x hx (hchar x hx).1
        simp only [wrapChunksLoop]
        rw [wrapStep_all_fits W hasL [c] (by simp)
          (by simp [hcws]) (by simpa using hfit)
          ⟨c, by simp, hcws⟩]
        simp [wrapChunksLoop_nil]
      rw [hstep]
      refine ⟨by simp, by simp [hfit, hne], ?_⟩
      have e : c.length + W - 1 = (c.length - 1) + W := by omega
      rw [e, Nat.add_div_right _ (by omega : 0 < W),
        Nat.div_eq_of_lt (by omega : c.length - 1 < W)]
      simp
    · have hlong : W < c.length := by omega
      have hdroplen : (c.drop W).length = c.length - W := List.length_drop W c
      have hdropne : c.drop W ≠ [] := by
        intro hcontra
        rw [hcontra] at hdroplen
        simp at hdroplen
        omega
      have hdropchar : ∀ ch ∈ c.drop W, isPyWS ch = false ∧ ch ≠ '-' :=
        fun ch hch => hchar ch (List.drop_subset W c hch)
      have hmdrop : chunksMeasure [c.drop W] < f := by
        simp only [chunksMeasure, List.map_cons, List.map_nil, List.sum_cons,
          List.sum_nil, List.length_cons, List.length_nil] at hm ⊢
        omega
      obtain ⟨ihf, ihm, ihc⟩ := ih (c.drop W) true hmdrop hdropne hdropchar
      have hstep : wrapChunksLoop W (f + 1) hasL [c] =
          c.take W :: wrapChunksLoop W f true [c.drop W] := by
        simp only [wrapChunksLoop]
        rw [wrapStep_long_chunk W hW hasL c hchar hlong]
      rw [hstep]
      have htklen : (c.take W).length = W := by
        rw [List.length_take]
        omega
      refine ⟨?_, ?_, ?_⟩
      · simp [ihf]
      · intro l hl
        rcases List.mem_cons.mp hl with hl | hl
        · subst hl
          refine ⟨by omega, ?_⟩
          intro hcontra
          rw [hcontra] at htklen
          simp at htklen
          omega
        · exact ihm l hl
      · simp only [List.length_cons, ihc, hdroplen]
        have e1 : c.length + W - 1 = (c.length - 1) + W := by omega
        have e2 : c.length - W + W - 1 = c.length - 1 := by omega
        rw [e1, e2, Nat.add_div_right _ (by omega : 0 < W)]

/-- Splitting on newlines is trivial for newline-free text. -/
theorem pySplitOnNl_no_nl (l : PyStr) (h : ∀ c ∈ l, c ≠ '\n') :
    pySplitOnNl l = [l] := by
  induction l with
  | nil => rfl
  | cons a t ih =>
    have ha := h a (List.mem_cons_self a t)
    rw [pySplitOnNl, if_neg ha, ih (fun c hc => h c (List.mem_cons_of_mem a hc))]

/-- Splitting on newlines peels off a leading newline-free segment. -/
theorem pySplitOnNl_append (l rest : PyStr) (h : ∀ c ∈ l, c ≠ '\n') :
    pySplitOnNl (l ++ '\n' :: rest) = l :: pySplitOnNl rest := by
  induction l with
  | nil => simp [pySplitOnNl]
  | cons a t ih =>
    have ha := h a (List.mem_cons_self a t)
    rw [List.cons_append, pySplitOnNl, if_neg ha,
      ih (fun c hc => h c (List.mem_cons_of_mem a hc))]

/-- Lemma: the `'\n'`-join / split round-trip holds on nonempty lists of newline-free
lines. -/
theorem pySplitOnNl_intercalate (lines : List PyStr) (hne : lines ≠ [])
    (hnl : ∀ l ∈ lines, ∀ c ∈ l, c ≠ '\n') :
    pySplitOnNl (List.intercalate ['\n'] lines) = lines := by
  induction lines with
  | nil => exact absurd rfl hne
  | cons x t ih =>
    cases t with
    | nil =>
      have : List.intercalate ['\n'] [x] = x := by simp [List.intercalate]
      rw [this, pySplitOnNl_no_nl x (hnl x (by simp))]
    | cons y u =>
      have hstep : List.intercalate ['\n'] (x :: y :: u) =
          x ++ '\n' :: List.intercalate ['\n'] (y :: u) := by
        simp [List.intercalate, List.intersperse]
      rw [hstep, pySplitOnNl_append x _ (hnl x (by simp)),
        ih (by simp) (fun l hl => hnl l (List.mem_cons_of_mem x hl))]

/-- Lemma: `testAt` inside the string evaluates the predicate at the character. -/
theorem testAt_of_lt (p : Char → Bool) (s : PyStr) (k : Nat)
    (h : k < s.length) : testAt p s k = p s[k] := by
  simp [testAt, List.get?_eq_getElem?, List.getElem?_eq_getElem h]

/-- Lemma: `testAt` past the end of the string is false. -/
theorem testAt_of_ge (p : Char → Bool) (s : PyStr) (k : Nat)
    (h : s.length ≤ k) : testAt p s k = false := by
  simp [testAt, List.get?_eq_getElem?, List.getElem?_eq_none h]

/-- A run starting at a failing character is empty. -/
theorem runLen_eq_zero (p : Char → Bool) (s : PyStr) (k : Nat)
    (hk : k < s.length) (h : p s[k] = false) :
    runLen p (s.drop k) = 0 := by
  rw [List.drop_eq_getElem_cons hk, runLen, h]
  simp

/-- On a whitespace-free, hyphen-free string the lazy word alternative runs
to the end of the string. -/
theorem lazyWordLen_word (s : PyStr)
    (hchar : ∀ c ∈ s, isPyWS c = false ∧ c ≠ '-') :
    ∀ (rem L : Nat), L + rem = s.length + 1 → 1 ≤ L → L ≤ s.length →
      lazyWordLen s 0 rem L = some s.length := by
  intro rem
  induction rem with
  | zero => intro L h1 h2 h3; omega
  | succ r ih =>
    intro L h1 h2 h3
    simp only [lazyWordLen, Nat.zero_add]
    by_cases hL : L = s.length
    · rw [testAt_of_ge _ _ _ (by omega)]
      simp [hL]
    · have hLlt : L < s.length := by omega
      have hcL := hchar s[L] (List.getElem_mem hLlt)
      have hd : testAt (fun x => x = '-') s L = false := by
        rw [testAt_of_lt _ _ _ hLlt]
        simp [hcL.2]
      have hw : testAt isPyWS s L = false := by
        rw [testAt_of_lt _ _ _ hLlt, hcL.1]
      have hrun : runLen (fun x => x = '-') (s.drop L) = 0 :=
        runLen_eq_zero _ _ _ hLlt (by simp [hcL.2])
      rw [hd]
      simp only [Bool.false_and, Bool.false_eq_true, if_false]
      rw [if_neg (by simp [hL, hw])]
      rw [if_neg (by simp [emDashAhead, hrun])]
      exact ih (L + 1) (by omega) (by omega) (by omega)

/-- On a nonempty whitespace-free, hyphen-free string `wordsep_re` matches
the whole string at position 0. -/
theorem matchAt_word (s : PyStr) (hne : s ≠ [])
    (hchar : ∀ c ∈ s, isPyWS c = false ∧ c ≠ '-') :
    matchAt s 0 = some s.length := by
  have hlen : 1 ≤ s.length := by
    cases s with
    | nil => exact absurd rfl hne
    | cons a t => simp
  have h0 : 0 < s.length := by omega
  have hc0 := hchar s[0] (List.getElem_mem h0)
  simp only [matchAt]
  rw [if_neg (by rw [testAt_of_lt _ _ _ (by omega : 0 < s.length), hc0.1]; simp)]
  rw [if_neg (by simp)]
  rw [if_pos (by
    rw [testAt_of_lt _ _ _ (by omega : 0 < s.length)]
    simp [hc0.1])]
  rw [List.drop_zero, runLen_all _ s (fun c hc => by simp [(hchar c hc).1])]
  exact lazyWordLen_word s hchar s.length 1 (by omega) (by omega) (by omega)

/-- Lemma: `_split` keeps a whitespace-free, hyphen-free word as a single chunk. -/
theorem pySplitChunks_word (s : PyStr) (hne : s ≠ [])
    (hchar : ∀ c ∈ s, isPyWS c = false ∧ c ≠ '-') :
    pySplitChunks s = [s] := by
  have hlen : 1 ≤ s.length := by
    cases s with
    | nil => exact absurd rfl hne
    | cons a t => simp
  have hrest : splitLoop s s.length s.length [] = [] := by
    cases hl : s.length with
    | zero => simp [splitLoop]
    | succ m =>
      simp only [splitLoop]
      rw [if_pos (by omega)]
      simp
  rw [pySplitChunks]
  simp only [splitLoop]
  rw [if_neg (by omega)]
  rw [matchAt_word s hne hchar]
  simp [hrest]

/-- Printable non-space ASCII characters are not Python whitespace. -/
theorem not_ws_of_printable (c : Char) (h : 33 ≤ c.toNat) :
    isPyWS c = false := by
  have h1 : c ≠ ' ' := fun hc => absurd (hc ▸ h) (by decide)
  have h2 : c ≠ '\t' := fun hc => absurd (hc ▸ h) (by decide)
  have h3 : c ≠ '\n' := fun hc => absurd (hc ▸ h) (by decide)
  have h4 : c ≠ '\x0b' := fun hc => absurd (hc ▸ h) (by decide)
  have h5 : c ≠ '\x0c' := fun hc => absurd (hc ▸ h) (by decide)
  have h6 : c ≠ '\r' := fun hc => absurd (hc ▸ h) (by decide)
  simp [isPyWS, h1, h2, h3, h4, h5, h6]

/-- Lemma: `_wrap_columns` on a single column is `fill` + newline split. -/
theorem wrap_columns_one (t : PyStr) (w : Int) (ls : PyStr)
    (h : pyFill (if t = [] then [' '] else t) w = .ok ls) :
    wrap_columns [t] [w] = .ok [pySplitOnNl ls] := by
  simp [wrap_columns, List.mapM, List.mapM.loop, h, Except.map, bind,
    Except.bind, pure, Except.pure]

/-- C4 amended: a single printable-ASCII word (no whitespace, no hyphens)
longer than its column width is NOT emitted unbroken: with
`break_long_words = True` (the default used by the code) the wrapping step
force-splits it into `⌈len/width⌉` consecutive pieces of at most the width,
whose concatenation is the word — more than one line, no truncation. -/
theorem c4_amended_long_word_force_split (word : PyStr) (w : Int)
    (hchar : ∀ c ∈ word, 33 ≤ c.toNat ∧ c.toNat ≤ 126 ∧ c ≠ '-')
    (hw : 1 ≤ w) (hlong : w < (word.length : Int)) :
    ∃ lines : List PyStr,
      wrap_columns [word] [w] = .ok [lines] ∧
      lines.flatten = word ∧
      (∀ l ∈ lines, (l.length : Int) ≤ w ∧ l ≠ []) ∧
      lines.length = (word.length + w.toNat - 1) / w.toNat ∧
      2 ≤ lines.length ∧ lines ≠ [word] := by
  have hWeq : ((w.toNat : Int)) = w := Int.toNat_of_nonneg (by omega)
  have hW1 : 1 ≤ w.toNat := by omega
  have hlongN : w.toNat < word.length := by omega
  have hne : word ≠ [] := by
    intro h
    rw [h] at hlongN
    simp at hlongN
  have hchar' : ∀ c ∈ word, isPyWS c = false ∧ c ≠ '-' := fun c hc =>
    ⟨not_ws_of_printable c (hchar c hc).1, (hchar c hc).2.2⟩
  have hmunge : pyMungeWhitespace word = word :=
    pyMungeWhitespace_id word
      (fun c hc hw0 => absurd hw0 (by simp [(hchar' c hc).1]))
      (fun c hc h0 => absurd (h0 ▸ (hchar c hc).1) (by decide))
  have hchunks : pySplitChunks (pyMungeWhitespace word) = [word] := by
    rw [hmunge]
    exact pySplitChunks_word word hne hchar'
  obtain ⟨hf, hm, hc⟩ := wrapChunksLoop_long_chunk w.toNat hW1
    (chunksMeasure [word] + 1) word false (by omega) hne hchar'
  set lines := wrapChunksLoop w.toNat (chunksMeasure [word] + 1) false [word]
    with hlines
  have hlne : lines ≠ [] := by
    intro h
    rw [h] at hf
    exact hne (hf.symm)
  have hnl : ∀ l ∈ lines, ∀ c ∈ l, c ≠ '\n' := by
    intro l hl c hcl hcontra
    have hcw : c ∈ word := by
      rw [← hf]
      exact List.mem_flatten.mpr ⟨l, hl, hcl⟩
    exact absurd (hcontra ▸ (hchar c hcw).1) (by decide)
  have hfill : pyFill (if word = [] then [' '] else word) w =
      .ok (List.intercalate ['\n'] lines) := by
    rw [if_neg hne, pyFill_ok_of_pos word w hw]
    rw [hchunks]
  have hcols : wrap_columns [word] [w] = .ok [lines] := by
    rw [wrap_columns_one word w _ hfill,
      pySplitOnNl_intercalate lines hlne hnl]
  refine ⟨lines, hcols, hf, ?_, hc, ?_, ?_⟩
  · intro l hl
    obtain ⟨h1, h2⟩ := hm l hl
    refine ⟨?_, h2⟩
    omega
  · rw [hc]
    rw [Nat.le_div_iff_mul_le (by omega : 0 < w.toNat)]
    omega
  · intro hcontra
    have hlen1 := congrArg List.length hcontra
    rw [hc] at hlen1
    simp at hlen1
    have h2 : 2 ≤ (word.length + w.toNat - 1) / w.toNat := by
      rw [Nat.le_div_iff_mul_le (by omega : 0 < w.toNat)]
      omega
    omega

/-- Witness for C4 amended: `"abcdef"` at width 3 splits into two lines. -/
theorem c4_amended_witness :
    ∃ lines : List PyStr,
      wrap_columns ["abcdef".toList] [(3 : Int)] = .ok [lines] ∧
      lines.flatten = "abcdef".toList ∧
      (∀ l ∈ lines, (l.length : Int) ≤ 3 ∧ l ≠ []) ∧
      lines.length = ("abcdef".toList.length + (3 : Int).toNat - 1) /
        (3 : Int).toNat ∧
      2 ≤ lines.length ∧ lines ≠ ["abcdef".toList] :=
  c4_amended_long_word_force_split "abcdef".toList 3 (by decide) (by decide)
    (by decide)

/-- C9 amended: a non-empty printable-ASCII string (interior spaces allowed)
that does not end in a space and is shorter than its column width wraps to
exactly one line equal to the original string — no padding, no change.  (The
restriction on the last character is forced by the trailing-whitespace drop
of `textwrap`, see the counterexample.) -/
theorem c9_amended_short_text_identity (s : PyStr) (w : Int)
    (hne : s ≠ [])
    (hchar : ∀ c ∈ s, c = ' ' ∨ (33 ≤ c.toNat ∧ c.toNat ≤ 126))
    (hlast : ∀ c, s.getLast? = some c → c ≠ ' ')
    (hshort : (s.length : Int) < w) :
    wrap_columns [s] [w] = .ok [[s]] := by
  have hlen0 : 0 ≤ (s.length : Int) := Int.natCast_nonneg _
  have hw1 : 1 ≤ w := by omega
  have hWeq : ((w.toNat : Int)) = w := Int.toNat_of_nonneg (by omega)
  have hshortN : s.length < w.toNat := by omega
  have hmunge : pyMungeWhitespace s = s := by
    refine pyMungeWhitespace_id s ?_ ?_
    · intro c hc hwc
      rcases hchar c hc with h | h
      · exact h
      · exact absurd hwc (by simp [not_ws_of_printable c h.1])
    · intro c hc h0
      rcases hchar c hc with h | h
      · exact absurd (h0 ▸ h) (by decide)
      · exact absurd (h0 ▸ h.1) (by decide)
  have hflat : (pySplitChunks s).flatten = s := pySplitChunks_flatten s
  have hchne : pySplitChunks s ≠ [] := by
    intro h
    rw [h] at hflat
    exact hne hflat.symm
  have hsum : ((pySplitChunks s).map List.length).sum = s.length := by
    rw [← List.length_flatten, hflat]
  obtain ⟨lc, hlc, hlceq⟩ := flatten_getLast? (pySplitChunks s)
    (pySplitChunks_ne_nil s) hchne
  have hlcne : lc ≠ [] := pySplitChunks_ne_nil s lc (by
    have := List.getLast?_eq_getLast (pySplitChunks s) hchne
    rw [hlc] at this
    have heq : lc = (pySplitChunks s).getLast hchne := by
      injection this
    rw [heq]
    exact List.getLast_mem hchne)
  have hslast := List.getLast?_eq_getLast s hne
  have hcl : lc.getLast? = some (s.getLast hne) := by
    rw [hlceq, hflat, hslast]
  have hclmem : s.getLast hne ∈ lc := by
    have := List.getLast?_eq_getLast lc hlcne
    rw [hcl] at this
    have heq : s.getLast hne = lc.getLast hlcne := by
      injection this
    rw [heq]
    exact List.getLast_mem hlcne
  have hclne : s.getLast hne ≠ ' ' := hlast _ hslast
  have hclws : isPyWS (s.getLast hne) = false := by
    rcases hchar _ (List.getLast_mem hne) with h | h
    · exact absurd h hclne
    · exact not_ws_of_printable _ h.1
  have hloop : wrapChunksLoop w.toNat (chunksMeasure (pySplitChunks s) + 1)
      false (pySplitChunks s) = [s] := by
    rw [wrapChunksLoop_all_fits w.toNat _ (pySplitChunks s) hchne (by omega)
      (by rw [hsum]; omega)
      ⟨lc, hlc, allWS_eq_false lc _ hclmem hclws⟩, hflat]
  have hfill : pyFill (if s = [] then [' '] else s) w = .ok s := by
    rw [if_neg hne, pyFill_ok_of_pos s w hw1, hmunge, hloop]
    simp [List.intercalate]
  rw [wrap_columns_one s w s hfill,
    pySplitOnNl_no_nl s (fun c hc hcontra => by
      rcases hchar c hc with h | h
      · exact absurd (hcontra ▸ h) (by decide)
      · exact absurd (hcontra ▸ h.1) (by decide))]

/-- Witness for C9 amended: `"ab c"` at width 10 wraps to itself. -/
theorem c9_amended_witness :
    wrap_columns ["ab c".toList] [(10 : Int)] = .ok [["ab c".toList]] :=
  c9_amended_short_text_identity "ab c".toList 10 (by decide) (by decide)
    (by decide) (by decide)
